import Mathlib

/-!
Shallow embedding of the IPO score-aggregation and multi-unit report-grouping
pipeline of `streamlit_app.py` (survey-to-report tool).

Modelling conventions:
* pandas cell values are modelled by `Cell`: `blank` is a missing value (NaN),
  `num q` is a cell whose string form parses as the number `q` (floats are
  idealised as rationals), `text s` is any other string cell (Likert labels
  and free text).
* Python floats are idealised as `ℚ`; Python `round(x, d)` (banker's rounding)
  is modelled exactly by `pyround`.
* `datetime.now().strftime("%Y.%m.%d")` is modelled by an explicit `today`
  argument to `build_report`.
* `mask_sensitive_content` (regex-based masking of emails/phones/team names)
  is kept abstract as a function parameter `mask : String → String`.
* The generative-AI narrative fields (`comprehensive_analysis`,
  `advanced_analysis`) are external collaborators and are not part of the
  modelled record.
-/

namespace OrgReport

/-- A cell of the raw survey table (a pandas cell). `blank` models NaN;
`num q` models a cell whose string rendering parses numerically to `q`;
`text s` models any other string content. -/
inductive Cell
  | blank
  | num (q : ℚ)
  | text (s : String)
  deriving DecidableEq, Repr

/-- Python `str.strip()` (kernel-computable model over the char list). -/
def pystrip (s : String) : String :=
  ⟨((s.data.dropWhile Char.isWhitespace).reverse.dropWhile Char.isWhitespace).reverse⟩

/-- Python `str.lower()` (ASCII case folding over the char list). -/
def pylower (s : String) : String := ⟨s.data.map Char.toLower⟩

/-- Helper for `pywords`: split a char list at whitespace, dropping empty
pieces; `acc` holds the current word reversed. -/
def wordsAux (acc : List Char) : List Char → List (List Char)
  | [] => if acc.isEmpty then [] else [acc.reverse]
  | c :: cs =>
    if c.isWhitespace then
      if acc.isEmpty then wordsAux [] cs else acc.reverse :: wordsAux [] cs
    else wordsAux (c :: acc) cs

/-- Python `str.split()` with no argument: whitespace-separated words. -/
def pywords (s : String) : List String := (wordsAux [] s.data).map (fun l => ⟨l⟩)

/-- `LIKERT_MAP` from `build_report` (streamlit_app.py lines 2838-2844). -/
def LIKERT_MAP : List (String × ℚ) :=
  [("매우 그렇지 않다", 1), ("전혀 그렇지 않다", 1), ("매우그렇지않다", 1),
   ("그렇지 않다", 2), ("그렇지않다", 2),
   ("보통이다", 3), ("보통", 3),
   ("그렇다", 4),
   ("매우 그렇다", 5), ("매우그렇다", 5), ("매우 그렇다.", 5)]

/-- Lookup of a trimmed string in `LIKERT_MAP`. -/
def likertLookup (s : String) : Option ℚ :=
  (LIKERT_MAP.find? (fun p => p.1 == s)).map (·.2)

/-- `to_num` in `build_report` (lines 2846-2848): strip, replace Likert
labels, then numeric parse with `errors="coerce"`. A `text` cell whose
trimmed form is not a Likert label fails the numeric parse and becomes null
(numeric-looking strings are modelled as `num` cells). -/
def to_num (c : Cell) : Option ℚ :=
  match c with
  | .blank => none
  | .num q => some q
  | .text s => likertLookup (pystrip s)

/-- The respondent table: unique column headers and rows of cells aligned
with the headers. -/
structure RawTable where
  cols : List String
  rows : List (List Cell)
  deriving DecidableEq, Repr

/-- Index of a column name in the header list. -/
def colIdx : List String → String → Option ℕ
  | [], _ => none
  | c :: cs, name => if c = name then some 0 else (colIdx cs name).map (· + 1)

/-- The cells of the named column (`df[col]`); `[]` if the column is absent. -/
def RawTable.colCells (t : RawTable) (name : String) : List Cell :=
  match colIdx t.cols name with
  | none => []
  | some i => t.rows.map (fun r => r.getD i Cell.blank)

/-- `to_num(df[col]).dropna()`: the parsed, non-null values of a column. -/
def colValid (t : RawTable) (name : String) : List ℚ :=
  (t.colCells name).filterMap to_num

/-- Arithmetic mean of a list of rationals (meaningful when nonempty). -/
def qmean (l : List ℚ) : ℚ := l.sum / l.length

/-- Round-half-to-even of a rational to an integer (Python's `round`). -/
def roundHalfEven (x : ℚ) : ℤ :=
  let f := Int.floor x
  let r := x - f
  if r < 1/2 then f
  else if 1/2 < r then f + 1
  else if f % 2 = 0 then f else f + 1

/-- Python `round(x, d)` idealised over rationals. -/
def pyround (d : ℕ) (x : ℚ) : ℚ := (roundHalfEven (x * 10 ^ d) : ℚ) / 10 ^ d

/-- `_grade` in `build_report` (lines 2882-2891): fixed grading thresholds. -/
def _grade (score : Option ℚ) : String :=
  match score with
  | none => "N/A"
  | some s =>
    if s ≥ 3.8 then "우수"
    else if s ≥ 3.4 then "양호"
    else if s ≥ 3.0 then "보통"
    else "개선 필요"

/-- One reference-index row (`index.xlsx`): header name (헤더명), question
text (문항명), top-level category (대분류), sub-category (소분류, `none`
models NaN). -/
structure IndexEntry where
  header : String
  question : String
  bigCat : String
  subCat : Option String
  deriving DecidableEq, Repr

/-- Per-item result assembled in `build_report` (lines 2946-2965).
`benchmark` is a plain float in the source (default `0.0`), hence `ℚ`. -/
structure ItemScore where
  question : String
  header : String
  subcategory : String
  average : Option ℚ
  benchmark : ℚ
  veryLow : ℚ
  low : ℚ
  medium : ℚ
  high : ℚ
  veryHigh : ℚ
  neg_pct : ℚ
  mid_pct : ℚ
  pos_pct : ℚ
  deriving DecidableEq, Repr

/-- `round(cnt / total * 100, 1)` for bucket `v` (line 2940). -/
def distPct (valid : List ℚ) (v : ℚ) : ℚ :=
  if valid.length = 0 then 0
  else pyround 1 ((valid.count v : ℚ) / (valid.length : ℚ) * 100)

/-- The condition guarding the non-null branch of the item loop
(line 2927 and 2930): non-empty header resolving to a column with at least
one parseable value. -/
def itemHasData (t : RawTable) (e : IndexEntry) : Prop :=
  pystrip e.header ≠ "" ∧ pystrip e.header ∈ t.cols ∧ colValid t (pystrip e.header) ≠ []

instance (t : RawTable) (e : IndexEntry) : Decidable (itemHasData t e) := by
  unfold itemHasData; infer_instance

/-- The unrounded item mean collected into `sub_scores` / `all_scores`
(lines 2931, 2934-2935); `none` when the item contributes nothing. -/
def itemMeanRaw (t : RawTable) (e : IndexEntry) : Option ℚ :=
  if itemHasData t e then some (qmean (colValid t (pystrip e.header))) else none

/-- The item dictionary built in lines 2917-2966 of `build_report`. -/
def mkItemScore (t : RawTable) (e : IndexEntry) : ItemScore :=
  let q := pystrip e.question
  let col := pystrip e.header
  let sc := pystrip (e.subCat.getD "")
  if itemHasData t e then
    let valid := colValid t col
    let avg := qmean valid
    let bm := pyround 2 (max 0 (min 5 (avg - 1/4)))
    let d1 := distPct valid 1
    let d2 := distPct valid 2
    let d3 := distPct valid 3
    let d4 := distPct valid 4
    let d5 := distPct valid 5
    { question := q, header := col, subcategory := sc,
      average := some (pyround 2 avg), benchmark := bm,
      veryLow := d1, low := d2, medium := d3, high := d4, veryHigh := d5,
      neg_pct := pyround 1 (d1 + d2), mid_pct := pyround 1 d3,
      pos_pct := pyround 1 (d4 + d5) }
  else
    { question := q, header := col, subcategory := sc,
      average := none, benchmark := 0,
      veryLow := 0, low := 0, medium := 0, high := 0, veryHigh := 0,
      neg_pct := 0, mid_pct := 0, pos_pct := 0 }

/-- C1: for every category average: null ↦ "N/A"; `a ≥ 3.8` ↦ "우수";
`3.4 ≤ a < 3.8` ↦ "양호"; `3.0 ≤ a < 3.4` ↦ "보통"; `a < 3.0` ↦
"개선 필요". -/
theorem C1_grade_thresholds (a : ℚ) :
    _grade none = "N/A" ∧
    (3.8 ≤ a → _grade (some a) = "우수") ∧
    (3.4 ≤ a ∧ a < 3.8 → _grade (some a) = "양호") ∧
    (3.0 ≤ a ∧ a < 3.4 → _grade (some a) = "보통") ∧
    (a < 3.0 → _grade (some a) = "개선 필요") := by
  refine ⟨rfl, ?_, ?_, ?_, ?_⟩
  · intro h
    simp only [_grade]
    rw [if_pos h]
  · rintro ⟨hl, hr⟩
    simp only [_grade]
    rw [if_neg (not_le.mpr hr), if_pos hl]
  · rintro ⟨hl, hr⟩
    have h38 : ¬ a ≥ 3.8 := not_le.mpr (lt_of_lt_of_le hr (by norm_num))
    have h34 : ¬ a ≥ 3.4 := not_le.mpr hr
    simp only [_grade]
    rw [if_neg h38, if_neg h34, if_pos hl]
  · intro h
    have h38 : ¬ a ≥ 3.8 := not_le.mpr (lt_of_lt_of_le h (by norm_num))
    have h34 : ¬ a ≥ 3.4 := not_le.mpr (lt_of_lt_of_le h (by norm_num))
    have h30 : ¬ a ≥ 3.0 := not_le.mpr h
    simp only [_grade]
    rw [if_neg h38, if_neg h34, if_neg h30]

/-- Witness for C1: all five branches exercised at concrete scores. -/
theorem C1_grade_thresholds_witness :
    _grade none = "N/A" ∧ _grade (some 4) = "우수" ∧
    _grade (some 3.5) = "양호" ∧ _grade (some 3.2) = "보통" ∧
    _grade (some 2) = "개선 필요" :=
  ⟨(C1_grade_thresholds 0).1,
   (C1_grade_thresholds 4).2.1 (by norm_num),
   (C1_grade_thresholds 3.5).2.2.1 (by norm_num),
   (C1_grade_thresholds 3.2).2.2.2.1 (by norm_num),
   (C1_grade_thresholds 2).2.2.2.2 (by norm_num)⟩

/-- `strip()` + `replace(r"\s+", " ")` applied to the 대분류 column
(lines 2865-2871): words joined by single spaces. -/
def collapseWS (s : String) : String :=
  String.intercalate " " (pywords s)

/-- `startsWithL needle hay`: `needle` is an initial segment of `hay`. -/
def startsWithL : List Char → List Char → Bool
  | [], _ => true
  | _ :: _, [] => false
  | a :: as, b :: bs => a == b && startsWithL as bs

/-- `substrL needle hay`: `needle` occurs inside `hay`. -/
def substrL (needle : List Char) : List Char → Bool
  | [] => needle.isEmpty
  | c :: rest => startsWithL needle (c :: rest) || substrL needle rest

/-- `hay.str.contains(needle, case=False)` for a regex-free needle
(line 2897): case-insensitive substring test. -/
def containsCI (hay needle : String) : Bool :=
  substrL (pylower needle).data (pylower hay).data

/-- The mask of line 2897: the cleaned 대분류 contains the IPO name,
case-insensitively. -/
def bigMatch (big : String) (e : IndexEntry) : Bool :=
  containsCI (collapseWS e.bigCat) big

/-- First-seen-order deduplication (pandas `Series.unique`), with an
accumulator of already-seen values. -/
def firstSeenAux [DecidableEq α] (seen : List α) : List α → List α
  | [] => []
  | x :: xs =>
    if x ∈ seen then firstSeenAux seen xs
    else x :: firstSeenAux (x :: seen) xs

/-- First-seen-order deduplication of a list. -/
def firstSeen [DecidableEq α] (l : List α) : List α := firstSeenAux [] l

/-- Sub-category dictionary built in lines 2972-2977. -/
structure SubcatScore where
  name : String
  average : Option ℚ
  items : List ItemScore
  item_count : ℕ
  deriving DecidableEq, Repr

/-- One sub-category group of the loop at lines 2907-2977: the rows of
`qdf` whose 소분류 equals `sc`, their items and their mean of unrounded
item means. -/
def mkSubcat (t : RawTable) (qdf : List IndexEntry) (sc : String) : SubcatScore :=
  let sub_qdf := qdf.filter (fun e => decide (e.subCat = some sc))
  let sub_items := sub_qdf.map (mkItemScore t)
  let sub_scores := sub_qdf.filterMap (itemMeanRaw t)
  { name := sc,
    average := if sub_scores = [] then none else some (pyround 2 (qmean sub_scores)),
    items := sub_items,
    item_count := sub_items.length }

/-- The non-null first-seen sub-category labels of `qdf` (the loop
`for sub_category in qdf["소분류"].unique()` with the `pd.isna` skip,
lines 2907-2909). -/
def subcatLabels (qdf : List IndexEntry) : List String :=
  firstSeen (qdf.filterMap IndexEntry.subCat)

/-- `all_scores` (lines 2904, 2935): unrounded item means collected in
sub-category-loop order. Items whose 소분류 is NaN never enter the loop. -/
def catScores (t : RawTable) (qdf : List IndexEntry) : List ℚ :=
  (subcatLabels qdf).flatMap
    (fun sc => (qdf.filter (fun e => decide (e.subCat = some sc))).filterMap (itemMeanRaw t))

/-- Category dictionary of lines 2983-2992. -/
structure CategoryScore where
  title : String
  average : Option ℚ
  subcategories : List SubcatScore
  items : List ItemScore
  deriving DecidableEq, Repr

/-- One iteration of the `for big in ["Input","Process","Output"]` loop
(lines 2896-2992); `none` models the `continue` on an empty `qdf`. -/
def mkCategory (t : RawTable) (idx : List IndexEntry) (big : String) :
    Option CategoryScore :=
  let qdf := idx.filter (bigMatch big)
  if qdf = [] then none
  else
    let subcats := (subcatLabels qdf).map (mkSubcat t qdf)
    let all := catScores t qdf
    some { title := big,
           average := if all = [] then none else some (pyround 2 (qmean all)),
           subcategories := subcats,
           items := subcats.flatMap (·.items) }

/-- `ipo_avgs.get(big)` (lines 2981, 2994-2996): the category average, or
`None` when the category was skipped or had no scored item. -/
def ipoAvg (t : RawTable) (idx : List IndexEntry) (big : String) : Option ℚ :=
  (mkCategory t idx big).bind (·.average)

end OrgReport


namespace OrgReport

/-! ### Unit grouper (`group_data_by_unit`, lines 1902-1936) -/

/-- Rows tagged with their original position, starting at `n`. -/
def enumFrom (n : ℕ) : List α → List (ℕ × α)
  | [] => []
  | x :: xs => (n, x) :: enumFrom (n + 1) xs

/-- Rows tagged with their original position (pandas row index). -/
def enumRows (l : List α) : List (ℕ × α) := enumFrom 0 l

/-- The `str(team_name)` key of a grouping cell; `none` models a NaN cell,
which pandas `groupby` silently drops. -/
def Cell.asKey : Cell → Option String
  | .blank => none
  | .num q => some (toString q)
  | .text s => some s

/-- The grouping key of one row under grouping column `gc`. -/
def rowKey (cols : List String) (gc : String) (r : List Cell) : Option String :=
  match colIdx cols gc with
  | none => none
  | some i => (r.getD i Cell.blank).asKey

/-- Result of `group_data_by_unit`: the unit-name → sub-table mapping in
insertion order, plus whether `st.error` was shown (the warning surface of
the fallback paths, lines 1919 and 1931). -/
structure Grouped where
  groups : List (String × List (ℕ × List Cell))
  warned : Bool
  deriving DecidableEq, Repr

/-- Indexed rows paired with their grouping key; rows whose key cell is NaN
are dropped (pandas `groupby` default `dropna=True`). -/
def keyedRows (t : RawTable) (gc : String) : List (String × ℕ × List Cell) :=
  (enumRows t.rows).filterMap
    (fun ir => (rowKey t.cols gc ir.2).map (fun k => (k, ir)))

/-- Insert into a list sorted by the boolean relation `le`. -/
def insertBy (le : α → α → Bool) (a : α) : List α → List α
  | [] => [a]
  | b :: bs => if le a b then a :: b :: bs else b :: insertBy le a bs

/-- Insertion sort by the boolean relation `le` (stable). -/
def sortBy (le : α → α → Bool) : List α → List α
  | [] => []
  | x :: xs => insertBy le x (sortBy le xs)

/-- Code-point lexicographic comparison of char lists (Python string `<`). -/
def lexLt : List Char → List Char → Bool
  | [], [] => false
  | [], _ :: _ => true
  | _ :: _, [] => false
  | a :: as, b :: bs => if a < b then true else if b < a then false else lexLt as bs

/-- Kind rank used to totalise the comparison of raw cell values. -/
def cellRank : Cell → ℕ
  | .blank => 0
  | .num _ => 1
  | .text _ => 2

/-- Python `<` on the raw values of a grouping column, as pandas `groupby`
sorts them before `str()` is applied: numeric values numerically, strings
code-point lexicographically. A column the code actually supports holds one
kind of value; across kinds (where pandas' sort would raise) and for the
never-sorted NaN the comparison is totalised by `cellRank`. -/
def cellLt (a b : Cell) : Bool :=
  if cellRank a < cellRank b then true
  else if cellRank b < cellRank a then false
  else match a, b with
    | .num q1, .num q2 => decide (q1 < q2)
    | .text s1, .text s2 => lexLt s1.data s2.data
    | _, _ => false

/-- The non-null raw cells of the grouping column, in row order (the values
pandas `groupby` groups and sorts; NaN cells are dropped). -/
def colKeyCells (t : RawTable) (gc : String) : List Cell :=
  (t.colCells gc).filter (fun c => decide (c ≠ Cell.blank))

/-- Ascending sort of raw cell values; `a` precedes `b` when `¬ b < a`. -/
def sortCells (l : List Cell) : List Cell :=
  sortBy (fun a b => ! cellLt b a) l

/-- The dict keys in insertion order: the distinct raw grouping values,
sorted ascending by raw value (pandas `groupby` sorts the raw values), then
stringified by `str(team_name)` (line 1928); a repeated stringification
does not create a second dict key. -/
def sortedKeys (t : RawTable) (gc : String) : List String :=
  firstSeen ((sortCells (firstSeen (colKeyCells t gc))).filterMap Cell.asKey)

/-- The groups produced by `df.groupby(group_column)` (line 1925): sorted
distinct keys, each with its rows in original order. -/
def unitGroups (t : RawTable) (gc : String) : List (String × List (ℕ × List Cell)) :=
  (sortedKeys t gc).map
    (fun k => (k, ((keyedRows t gc).filter (fun p => decide (p.1 = k))).map (·.2)))

/-- The groups surviving the minimum-size check `len(team_df) < 3: continue`
(line 1926). -/
def bigGroups (t : RawTable) (gc : String) : List (String × List (ℕ × List Cell)) :=
  (unitGroups t gc).filter (fun g => decide (3 ≤ g.2.length))

/-- `group_data_by_unit` (lines 1902-1936). `group_column = none` models
Python `group_column=None` (falsy, like the empty string). -/
def group_data_by_unit (t : RawTable) (group_type : String)
    (group_column : Option String) : Grouped :=
  if group_type = "전체" then ⟨[("전체 조직", enumRows t.rows)], false⟩
  else if group_type = "팀별" then
    match group_column with
    | none => ⟨[("전체 조직", enumRows t.rows)], true⟩
    | some gc =>
      if gc = "" ∨ ¬ gc ∈ t.cols then ⟨[("전체 조직", enumRows t.rows)], true⟩
      else if bigGroups t gc = [] then ⟨[("전체 조직", enumRows t.rows)], true⟩
      else ⟨bigGroups t gc, false⟩
  else ⟨[("전체 조직", enumRows t.rows)], false⟩

/-! ### Free-text preprocessing (`preprocess_answer_list`, lines 75-121, and
`build_structured_open_ended`, lines 124-157) -/

/-- `' '.join(s.lower().split())` (line 103): case- and
whitespace-insensitive normal form. -/
def normalizeWS (s : String) : String :=
  String.intercalate " " (pywords (pylower s))

/-- The `for answer in raw_answers` loop of lines 93-110: strip, drop short
answers, drop duplicates (against `seen` and the global set), mask and keep
the rest in input order. -/
def cleanLoop (mask : String → String) (global seen : List String) :
    List String → List String
  | [] => []
  | a :: rest =>
    let c := pystrip a
    if c.length < 10 then cleanLoop mask global seen rest
    else
      let n := normalizeWS c
      if n ∈ seen ∨ n ∈ global then cleanLoop mask global seen rest
      else mask c :: cleanLoop mask global (n :: seen) rest

/-- Stable descending sort by string length
(`sorted(key=len, reverse=True)`, line 114). -/
def sortByLenDesc (l : List String) : List String :=
  sortBy (fun a b => decide (b.length ≤ a.length)) l

/-- `preprocess_answer_list` (lines 75-121): returns the cleaned answers and
the updated global used-sentence set (modelled as a list; only membership
matters). -/
def preprocess_answer_list (mask : String → String) (raw global : List String) :
    List String × List String :=
  if raw = [] then ([], global)
  else
    let cleaned := cleanLoop mask global [] raw
    let final := if 20 < cleaned.length then (sortByLenDesc cleaned).take 20 else cleaned
    (final, global ++ (final.take 3).map normalizeWS)

/-- `str(cell)` for a non-null cell (`dropna().astype(str)`, line 147). -/
def Cell.asStr : Cell → Option String
  | .blank => none
  | .num q => some (toString q)
  | .text s => some s

/-- One entry of `structured_data` (lines 152-157). -/
structure OpenEndedBlock where
  header : String
  title : String
  category : Option String
  answers : List String
  deriving DecidableEq, Repr

/-- The `for _, item in subjective_items.iterrows()` loop (lines 140-157),
threading the shared `global_used_sentences` set through the questions in
order. -/
def bsoAux (mask : String → String) (t : RawTable) (global : List String) :
    List IndexEntry → List OpenEndedBlock
  | [] => []
  | e :: rest =>
    if e.header ∈ t.cols then
      let raw := (t.colCells e.header).filterMap Cell.asStr
      if raw = [] then bsoAux mask t global rest
      else
        let p := preprocess_answer_list mask raw global
        ⟨e.header, e.question, e.subCat, p.1⟩ :: bsoAux mask t p.2 rest
    else bsoAux mask t global rest

/-- `build_structured_open_ended` (lines 124-157), restricted to the
deterministic `basic_responses` part (the AI narrative fields are external
collaborators). -/
def build_structured_open_ended (mask : String → String) (t : RawTable)
    (idx : List IndexEntry) : List OpenEndedBlock :=
  bsoAux mask t [] (idx.filter (fun e => decide (e.bigCat = "주관식")))

/-! ### Report assembly (`build_report`, lines 2837-3120) -/

/-- First non-null cell of a column, as a string. -/
def firstNonBlankStr (cells : List Cell) : Option String :=
  (cells.filterMap Cell.asStr).head?

/-- The candidate-column scan of lines 2853-2860: the first candidate column
that exists and has a non-null value gives the (stripped) name. -/
def detectName (t : RawTable) (cands : List String) : Option String :=
  (cands.filterMap
    (fun c => if c ∈ t.cols then (firstNonBlankStr (t.colCells c)).map pystrip
              else none)).head?

/-- `is_objective_column` (lines 2873-2880): at least 80% of the parsed
values lie in [1, 5]. -/
def is_objective_column (t : RawTable) (col : String) : Bool :=
  let s := colValid t col
  !s.isEmpty &&
    decide (4 * s.length ≤ 5 * (s.filter (fun q => decide (1 ≤ q) && decide (q ≤ 5))).length)

/-- The chart rows of lines 3015-3044: label, rounded mean and rounded
benchmark per objective item. -/
def chartItems (t : RawTable) (idx : List IndexEntry) : List (String × ℚ × ℚ) :=
  idx.filterMap (fun e =>
    let col := pystrip e.header
    let label := pystrip e.question
    if label = "" ∨ col = "" ∨ ¬ col ∈ t.cols then none
    else if ¬ is_objective_column t col then none
    else
      let num := colValid t col
      if num = [] then none
      else
        let avg := qmean num
        some (label, pyround 2 avg, pyround 2 (max 0 (min 5 (avg - 1/4)))))

/-- One `ipo_cards` entry (lines 2998-3002). -/
structure IpoCard where
  title : String
  score : Option ℚ
  grade : String
  deriving DecidableEq, Repr

/-- The report dictionary returned at lines 3106-3120, restricted to the
data-bearing fields (constant narrative strings and the AI narrative are
omitted; `report_date` is `datetime.now().strftime("%Y.%m.%d")`, modelled by
the explicit `today` argument). -/
structure ReportRecord where
  org_name : String
  dept_name : Option String
  report_date : String
  respondents : ℕ
  ipo_input : Option ℚ
  ipo_process : Option ℚ
  ipo_output : Option ℚ
  ipo_cards : List IpoCard
  categories : List CategoryScore
  line_labels : List String
  our_scores : List ℚ
  benchmark_scores : List ℚ
  open_ended : List OpenEndedBlock
  improvement_priorities : List String
  deriving DecidableEq, Repr

/-- `build_report` (lines 2837-3120) over one sub-table. -/
def build_report (mask : String → String) (t : RawTable) (idx : List IndexEntry)
    (today : String) : ReportRecord :=
  let org_name := (detectName t ["조직명", "회사명", "Org", "Organization"]).getD "업로드 데이터"
  let dept_name := detectName t ["부서명", "팀명", "Department"]
  let input_avg := ipoAvg t idx "Input"
  let process_avg := ipoAvg t idx "Process"
  let output_avg := ipoAvg t idx "Output"
  let chart := chartItems t idx
  { org_name := org_name,
    dept_name := dept_name,
    report_date := today,
    respondents := t.rows.length,
    ipo_input := input_avg.map (pyround 2),
    ipo_process := process_avg.map (pyround 2),
    ipo_output := output_avg.map (pyround 2),
    ipo_cards := [⟨"Input", input_avg, _grade input_avg⟩,
                  ⟨"Process", process_avg, _grade process_avg⟩,
                  ⟨"Output", output_avg, _grade output_avg⟩],
    categories := ["Input", "Process", "Output"].filterMap (mkCategory t idx),
    line_labels := chart.map (·.1),
    our_scores := chart.map (·.2.1),
    benchmark_scores := chart.map (·.2.2),
    open_ended := build_structured_open_ended mask t idx,
    improvement_priorities :=
      ["점수가 낮은 Input 세부항목을 1순위로 개선",
       "Process 영역 중 협업·의사소통 항목은 제도화 필요",
       "Output 영역에서 반복 언급된 이슈는 리더십 미팅 안건화"] }

end OrgReport

namespace OrgReport

/-! ### Concrete inputs used by witnesses and counterexamples -/

/-- One-column table with a single numeric response. -/
def Tmiss : RawTable := ⟨["Q1"], [[Cell.num 1]]⟩

/-- Index entry whose header is absent from `Tmiss`. -/
def Emiss : IndexEntry := ⟨"QX", "missing item", "Input", none⟩

/-- One Likert column with values [1,1,1,2,2,3,3,4] (mean 17/8 = 2.125). -/
def T8 : RawTable :=
  ⟨["Q1"], [[Cell.num 1], [Cell.num 1], [Cell.num 1], [Cell.num 2],
            [Cell.num 2], [Cell.num 3], [Cell.num 3], [Cell.num 4]]⟩

/-- Index entry for the `T8` column. -/
def E8 : IndexEntry := ⟨"Q1", "item one", "Input", some "S"⟩

end OrgReport

namespace OrgReport

/-! ### C7: item whose header is absent from the table -/

/-- C7 (amended): an item whose (stripped) header is not a column of the
table yields no exception and an ItemScore with null mean, benchmark 0.0 and
all-zero distribution. -/
theorem C7_missing_column_item (t : RawTable) (e : IndexEntry)
    (h : pystrip e.header ∉ t.cols) :
    mkItemScore t e =
      { question := pystrip e.question, header := pystrip e.header,
        subcategory := pystrip (e.subCat.getD ""),
        average := none, benchmark := 0,
        veryLow := 0, low := 0, medium := 0, high := 0, veryHigh := 0,
        neg_pct := 0, mid_pct := 0, pos_pct := 0 } := by
  have hnd : ¬ itemHasData t e := fun hd => h hd.2.1
  simp [mkItemScore, hnd]

/-- Witness for C7 at a concrete missing-column input. -/
theorem C7_missing_column_item_witness :
    pystrip Emiss.header ∉ Tmiss.cols ∧
    mkItemScore Tmiss Emiss =
      { question := pystrip Emiss.question, header := pystrip Emiss.header,
        subcategory := pystrip (Emiss.subCat.getD ""),
        average := none, benchmark := 0,
        veryLow := 0, low := 0, medium := 0, high := 0, veryHigh := 0,
        neg_pct := 0, mid_pct := 0, pos_pct := 0 } :=
  ⟨by decide, C7_missing_column_item Tmiss Emiss (by decide)⟩

/-- C7 counterexample to the claim as stated: for the missing-column item
the produced benchmark is the number 0.0 (the field is float-valued in the
source, initialised at line 2923), not null; only the mean is null. -/
theorem C7_benchmark_not_null :
    (mkItemScore Tmiss Emiss).benchmark = 0 ∧
    (mkItemScore Tmiss Emiss).average = none := by
  constructor <;> decide

end OrgReport

namespace OrgReport

/-! ### Rounding lemmas for C2 -/

/-- Banker's rounding moves a value by at most 1/2. -/
theorem roundHalfEven_err (x : ℚ) : |(roundHalfEven x : ℚ) - x| ≤ 1/2 := by
  have h0 : (Int.floor x : ℚ) ≤ x := Int.floor_le x
  have h1 : x < (Int.floor x : ℚ) + 1 := Int.lt_floor_add_one x
  simp only [roundHalfEven]
  split_ifs with hlt hgt hev <;> rw [abs_le] <;> constructor <;> push_cast <;> linarith

/-- `pyround d` moves a value by at most half of the last kept digit. -/
theorem pyround_err (d : ℕ) (x : ℚ) : |pyround d x - x| ≤ 1 / (2 * 10 ^ d) := by
  have h10 : (0 : ℚ) < 10 ^ d := by positivity
  have hrw : pyround d x - x = ((roundHalfEven (x * 10 ^ d) : ℚ) - x * 10 ^ d) / 10 ^ d := by
    unfold pyround
    field_simp
    ring
  have h := roundHalfEven_err (x * 10 ^ d)
  rw [hrw, abs_div, abs_of_pos h10,
    div_le_div_iff₀ h10 (by positivity : (0:ℚ) < 2 * 10 ^ d)]
  nlinarith [abs_nonneg ((roundHalfEven (x * 10 ^ d) : ℚ) - x * 10 ^ d)]

end OrgReport

namespace OrgReport

/-- `pyround d x` is an integer multiple of `1/10^d`. -/
theorem pyround_image (d : ℕ) (x : ℚ) : ∃ z : ℤ, pyround d x = (z : ℚ) / 10 ^ d :=
  ⟨roundHalfEven (x * 10 ^ d), rfl⟩

/-- If every value of a list is one of 1..5, the five bucket counts sum to
the list length. -/
theorem count_partition (l : List ℚ)
    (h : ∀ q ∈ l, q = 1 ∨ q = 2 ∨ q = 3 ∨ q = 4 ∨ q = 5) :
    l.count 1 + l.count 2 + l.count 3 + l.count 4 + l.count 5 = l.length := by
  induction l with
  | nil => simp
  | cons a l ih =>
    have hrest : ∀ q ∈ l, q = 1 ∨ q = 2 ∨ q = 3 ∨ q = 4 ∨ q = 5 :=
      fun q hq => h q (List.mem_cons_of_mem a hq)
    specialize ih hrest
    have ha := h a (List.mem_cons_self a l)
    rcases ha with h1 | h2 | h3 | h4 | h5 <;> subst a <;>
      simp +decide [List.count_cons] <;> omega

end OrgReport

namespace OrgReport

/-- Unfolding of `mkItemScore` when the item has data. -/
theorem itemScore_eq_of_hasData (t : RawTable) (e : IndexEntry)
    (h : itemHasData t e) :
    mkItemScore t e =
      { question := pystrip e.question, header := pystrip e.header,
        subcategory := pystrip (e.subCat.getD ""),
        average := some (pyround 2 (qmean (colValid t (pystrip e.header)))),
        benchmark := pyround 2 (max 0 (min 5 (qmean (colValid t (pystrip e.header)) - 1/4))),
        veryLow := distPct (colValid t (pystrip e.header)) 1,
        low := distPct (colValid t (pystrip e.header)) 2,
        medium := distPct (colValid t (pystrip e.header)) 3,
        high := distPct (colValid t (pystrip e.header)) 4,
        veryHigh := distPct (colValid t (pystrip e.header)) 5,
        neg_pct := pyround 1 (distPct (colValid t (pystrip e.header)) 1 +
                              distPct (colValid t (pystrip e.header)) 2),
        mid_pct := pyround 1 (distPct (colValid t (pystrip e.header)) 3),
        pos_pct := pyround 1 (distPct (colValid t (pystrip e.header)) 4 +
                              distPct (colValid t (pystrip e.header)) 5) } := by
  simp only [mkItemScore]
  rw [if_pos h]

/-- For a nonempty valid-value list, `distPct` is the rounded percentage. -/
theorem distPct_eq (valid : List ℚ) (v : ℚ) (h : valid ≠ []) :
    distPct valid v = pyround 1 (100 * (valid.count v : ℚ) / (valid.length : ℚ)) := by
  have hlen : valid.length ≠ 0 := fun h0 => h (List.length_eq_zero.mp h0)
  simp only [distPct, if_neg hlen]
  congr 1
  ring

end OrgReport

namespace OrgReport

/-- C2 (amended): for an item with at least one parseable response, the
reported average is the mean rounded to 2 decimals, the benchmark is
`round(clamp(mean - 0.25, 0, 5), 2)`, each distribution percentage is
`round(100 * count(v) / count(valid), 1)`, and when every parseable value is
an integer in 1..5 the five percentages sum to 100 within ±0.2. -/
theorem C2_item_score_amended (t : RawTable) (e : IndexEntry) (h : itemHasData t e) :
    (mkItemScore t e).average = some (pyround 2 (qmean (colValid t (pystrip e.header)))) ∧
    (mkItemScore t e).benchmark =
      pyround 2 (max 0 (min 5 (qmean (colValid t (pystrip e.header)) - 1/4))) ∧
    (mkItemScore t e).veryLow =
      pyround 1 (100 * ((colValid t (pystrip e.header)).count 1 : ℚ) /
        ((colValid t (pystrip e.header)).length : ℚ)) ∧
    (mkItemScore t e).low =
      pyround 1 (100 * ((colValid t (pystrip e.header)).count 2 : ℚ) /
        ((colValid t (pystrip e.header)).length : ℚ)) ∧
    (mkItemScore t e).medium =
      pyround 1 (100 * ((colValid t (pystrip e.header)).count 3 : ℚ) /
        ((colValid t (pystrip e.header)).length : ℚ)) ∧
    (mkItemScore t e).high =
      pyround 1 (100 * ((colValid t (pystrip e.header)).count 4 : ℚ) /
        ((colValid t (pystrip e.header)).length : ℚ)) ∧
    (mkItemScore t e).veryHigh =
      pyround 1 (100 * ((colValid t (pystrip e.header)).count 5 : ℚ) /
        ((colValid t (pystrip e.header)).length : ℚ)) ∧
    ((∀ q ∈ colValid t (pystrip e.header), q = 1 ∨ q = 2 ∨ q = 3 ∨ q = 4 ∨ q = 5) →
      |(mkItemScore t e).veryLow + (mkItemScore t e).low + (mkItemScore t e).medium +
        (mkItemScore t e).high + (mkItemScore t e).veryHigh - 100| ≤ 1/5) := by
  have hv : colValid t (pystrip e.header) ≠ [] := h.2.2
  rw [itemScore_eq_of_hasData t e h]
  refine ⟨rfl, rfl, distPct_eq _ _ hv, distPct_eq _ _ hv, distPct_eq _ _ hv,
    distPct_eq _ _ hv, distPct_eq _ _ hv, ?_⟩
  intro hall
  set valid := colValid t (pystrip e.header) with hvdef
  have hn : (0:ℚ) < (valid.length : ℚ) := by
    have hpos := List.length_pos.mpr hv
    exact_mod_cast hpos
  have hc := count_partition valid hall
  have hxsum :
      100 * (valid.count 1 : ℚ) / (valid.length : ℚ) +
      100 * (valid.count 2 : ℚ) / (valid.length : ℚ) +
      100 * (valid.count 3 : ℚ) / (valid.length : ℚ) +
      100 * (valid.count 4 : ℚ) / (valid.length : ℚ) +
      100 * (valid.count 5 : ℚ) / (valid.length : ℚ) = 100 := by
    have hcq : ((valid.count 1 : ℚ) + (valid.count 2 : ℚ) + (valid.count 3 : ℚ) +
        (valid.count 4 : ℚ) + (valid.count 5 : ℚ)) = (valid.length : ℚ) := by
      exact_mod_cast congrArg (fun m : ℕ => (m : ℚ)) hc
    field_simp
    linarith
  rw [distPct_eq _ _ hv, distPct_eq _ _ hv, distPct_eq _ _ hv,
      distPct_eq _ _ hv, distPct_eq _ _ hv]
  obtain ⟨z1, hz1⟩ := pyround_image 1 (100 * (valid.count 1 : ℚ) / (valid.length : ℚ))
  obtain ⟨z2, hz2⟩ := pyround_image 1 (100 * (valid.count 2 : ℚ) / (valid.length : ℚ))
  obtain ⟨z3, hz3⟩ := pyround_image 1 (100 * (valid.count 3 : ℚ) / (valid.length : ℚ))
  obtain ⟨z4, hz4⟩ := pyround_image 1 (100 * (valid.count 4 : ℚ) / (valid.length : ℚ))
  obtain ⟨z5, hz5⟩ := pyround_image 1 (100 * (valid.count 5 : ℚ) / (valid.length : ℚ))
  have e1 := pyround_err 1 (100 * (valid.count 1 : ℚ) / (valid.length : ℚ))
  have e2 := pyround_err 1 (100 * (valid.count 2 : ℚ) / (valid.length : ℚ))
  have e3 := pyround_err 1 (100 * (valid.count 3 : ℚ) / (valid.length : ℚ))
  have e4 := pyround_err 1 (100 * (valid.count 4 : ℚ) / (valid.length : ℚ))
  have e5 := pyround_err 1 (100 * (valid.count 5 : ℚ) / (valid.length : ℚ))
  rw [hz1] at e1; rw [hz2] at e2; rw [hz3] at e3; rw [hz4] at e4; rw [hz5] at e5
  rw [hz1, hz2, hz3, hz4, hz5]
  rw [abs_le] at e1 e2 e3 e4 e5
  obtain ⟨e1l, e1r⟩ := e1
  obtain ⟨e2l, e2r⟩ := e2
  obtain ⟨e3l, e3r⟩ := e3
  obtain ⟨e4l, e4r⟩ := e4
  obtain ⟨e5l, e5r⟩ := e5
  norm_num at e1l e1r e2l e2r e3l e3r e4l e4r e5l e5r
  have hup : (z1:ℚ) + z2 + z3 + z4 + z5 ≤ 2005/2 := by linarith
  have hlo : (1995/2 : ℚ) ≤ (z1:ℚ) + z2 + z3 + z4 + z5 := by linarith
  have hZu : z1 + z2 + z3 + z4 + z5 ≤ (1002 : ℤ) := by
    by_contra hcon
    push_neg at hcon
    have h1003 : (1003 : ℤ) ≤ z1 + z2 + z3 + z4 + z5 := by omega
    have hq : ((1003 : ℤ) : ℚ) ≤ ((z1 + z2 + z3 + z4 + z5 : ℤ) : ℚ) := by
      exact_mod_cast h1003
    push_cast at hq
    linarith
  have hZl : (998 : ℤ) ≤ z1 + z2 + z3 + z4 + z5 := by
    by_contra hcon
    push_neg at hcon
    have h997 : z1 + z2 + z3 + z4 + z5 ≤ (997 : ℤ) := by omega
    have hq : ((z1 + z2 + z3 + z4 + z5 : ℤ) : ℚ) ≤ ((997 : ℤ) : ℚ) := by
      exact_mod_cast h997
    push_cast at hq
    linarith
  have hZuQ : (z1:ℚ) + z2 + z3 + z4 + z5 ≤ 1002 := by exact_mod_cast hZu
  have hZlQ : (998 : ℚ) ≤ (z1:ℚ) + z2 + z3 + z4 + z5 := by exact_mod_cast hZl
  rw [abs_le]
  constructor
  · norm_num
    linarith
  · norm_num
    linarith

end OrgReport

namespace OrgReport

/-- Witness for C2 at the concrete column [1,1,1,2,2,3,3,4]. -/
theorem C2_item_score_amended_witness :
    itemHasData T8 E8 ∧
    |(mkItemScore T8 E8).veryLow + (mkItemScore T8 E8).low + (mkItemScore T8 E8).medium +
      (mkItemScore T8 E8).high + (mkItemScore T8 E8).veryHigh - 100| ≤ 1/5 :=
  ⟨by decide, (C2_item_score_amended T8 E8 (by decide)).2.2.2.2.2.2.2 (by decide)⟩

/-- C2 counterexample to the claim as stated: for the column
[1,1,1,2,2,3,3,4] the mean is 17/8 = 2.125 and the produced benchmark is
1.88 (`round(1.875, 2)` under banker's rounding), which differs both from
`clamp(mean - 0.25, 0, 5) = 1.875` and from
`clamp(rounded_mean - 0.25, 0, 5) = 1.87`: the source rounds the benchmark
to 2 decimals (line 2933). -/
theorem C2_benchmark_rounding_counterexample :
    qmean (colValid T8 (pystrip E8.header)) = 17/8 ∧
    (mkItemScore T8 E8).average = some (212/100) ∧
    (mkItemScore T8 E8).benchmark = 188/100 ∧
    max 0 (min 5 ((17:ℚ)/8 - 1/4)) = 15/8 ∧
    ((188:ℚ)/100) ≠ 15/8 ∧
    ((188:ℚ)/100) ≠ max 0 (min 5 ((212:ℚ)/100 - 1/4)) := by
  have hval : colValid T8 (pystrip E8.header) = [1, 1, 1, 2, 2, 3, 3, 4] := by decide
  have hmean : qmean [(1:ℚ), 1, 1, 2, 2, 3, 3, 4] = 17/8 := by
    norm_num [qmean]
  refine ⟨by rw [hval]; exact hmean, ?_, ?_, by norm_num [min_def, max_def],
    by norm_num, by norm_num [min_def, max_def]⟩
  · rw [itemScore_eq_of_hasData T8 E8 (by decide)]
    simp only [hval, hmean]
    norm_num [pyround, roundHalfEven]
  · rw [itemScore_eq_of_hasData T8 E8 (by decide)]
    simp only [hval, hmean]
    norm_num [pyround, roundHalfEven, min_def, max_def]

end OrgReport

namespace OrgReport

/-! ### firstSeen and group-flatten lemmas (for C3 and the grouper claims) -/

/-- Membership in `firstSeenAux`: in the tail and not already seen. -/
theorem mem_firstSeenAux [DecidableEq α] (a : α) :
    ∀ (seen l : List α), a ∈ firstSeenAux seen l ↔ a ∈ l ∧ a ∉ seen := by
  intro seen l
  induction l generalizing seen with
  | nil => simp [firstSeenAux]
  | cons x xs ih =>
    rw [firstSeenAux]
    split_ifs with hx
    · rw [ih seen]
      simp only [List.mem_cons]
      constructor
      · rintro ⟨hm, hs⟩
        exact ⟨Or.inr hm, hs⟩
      · rintro ⟨hm | hm, hs⟩
        · exact absurd (hm ▸ hx) hs
        · exact ⟨hm, hs⟩
    · simp only [List.mem_cons, ih (x :: seen)]
      constructor
      · rintro (hax | ⟨hm, hs⟩)
        · exact ⟨Or.inl hax, hax ▸ hx⟩
        · exact ⟨Or.inr hm, fun h => hs (Or.inr h)⟩
      · rintro ⟨hax | hm, hs⟩
        · exact Or.inl hax
        · by_cases hax : a = x
          · exact Or.inl hax
          · exact Or.inr ⟨hm, fun hmem => hmem.elim hax hs⟩

/-- Membership in `firstSeen` is membership in the original list. -/
theorem mem_firstSeen [DecidableEq α] (a : α) (l : List α) :
    a ∈ firstSeen l ↔ a ∈ l := by
  rw [firstSeen, mem_firstSeenAux]
  simp

/-- `firstSeenAux` has no duplicates. -/
theorem nodup_firstSeenAux [DecidableEq α] :
    ∀ (seen l : List α), (firstSeenAux seen l).Nodup := by
  intro seen l
  induction l generalizing seen with
  | nil => simp [firstSeenAux]
  | cons x xs ih =>
    by_cases hx : x ∈ seen
    · rw [firstSeenAux, if_pos hx]
      exact ih seen
    · rw [firstSeenAux, if_neg hx]
      refine List.nodup_cons.mpr ⟨fun hmem => ?_, ih (x :: seen)⟩
      have := (mem_firstSeenAux x (x :: seen) xs).mp hmem
      exact this.2 (List.mem_cons_self x seen)

/-- `firstSeen` has no duplicates. -/
theorem nodup_firstSeen [DecidableEq α] (l : List α) : (firstSeen l).Nodup :=
  nodup_firstSeenAux [] l

end OrgReport

namespace OrgReport

/-- `flatMap` only depends on the function's values on members. -/
theorem flatMap_congr_mem (l : List α) (f g : α → List β)
    (h : ∀ a ∈ l, f a = g a) : l.flatMap f = l.flatMap g := by
  induction l with
  | nil => rfl
  | cons x xs ih =>
    simp only [List.flatMap_cons]
    rw [h x (List.mem_cons_self x xs), ih (fun a ha => h a (List.mem_cons_of_mem _ ha))]

/-- `filterMap` distributes over `flatMap`. -/
theorem filterMap_flatMap_comm (ks : List K) (g : K → List α) (f : α → Option β) :
    (ks.flatMap g).filterMap f = ks.flatMap (fun k => (g k).filterMap f) := by
  induction ks with
  | nil => rfl
  | cons k ks ih =>
    simp only [List.flatMap_cons, List.filterMap_append, ih]

/-- Flattening the per-key filters over a duplicate-free covering key list is
a permutation of the elements with a non-null key. -/
theorem group_flatten_perm [DecidableEq K] (key : α → Option K) :
    ∀ (ks : List K) (l : List α), ks.Nodup →
      (∀ a ∈ l, ∀ k, key a = some k → k ∈ ks) →
      (ks.flatMap fun k => l.filter (fun x => decide (key x = some k))).Perm
        (l.filter (fun x => (key x).isSome)) := by
  intro ks
  induction ks with
  | nil =>
    intro l _ hcov
    have hnil : l.filter (fun x => (key x).isSome) = [] := by
      rw [List.filter_eq_nil_iff]
      intro a ha hsome
      obtain ⟨k, hk⟩ := Option.isSome_iff_exists.mp hsome
      exact absurd (hcov a ha k hk) (List.not_mem_nil k)
    simp [hnil]
  | cons k ks ih =>
    intro l hnd hcov
    obtain ⟨hknotin, hndks⟩ := List.nodup_cons.mp hnd
    have hterm : ∀ k2 ∈ ks,
        l.filter (fun x => decide (key x = some k2)) =
        (l.filter (fun x => ! decide (key x = some k))).filter
          (fun x => decide (key x = some k2)) := by
      intro k2 hk2
      have hkk : k2 ≠ k := fun hh => hknotin (hh ▸ hk2)
      rw [List.filter_filter]
      apply List.filter_congr
      intro x _
      by_cases hkey : key x = some k2
      · have hne : ¬ key x = some k := by
          rw [hkey]
          simp [hkk]
        simp [hkey, hne]
        exact hkk
      · simp [hkey]
    have hcov2 : ∀ a ∈ l.filter (fun x => ! decide (key x = some k)),
        ∀ k0, key a = some k0 → k0 ∈ ks := by
      intro a ha k0 hk0
      obtain ⟨hal, hpa⟩ := List.mem_filter.mp ha
      rcases List.mem_cons.mp (hcov a hal k0 hk0) with h1 | h2
      · exfalso
        rw [h1] at hk0
        simp [hk0] at hpa
      · exact h2
    have hperm2 := ih (l.filter (fun x => ! decide (key x = some k))) hndks hcov2
    rw [List.flatMap_cons, flatMap_congr_mem ks _ _ hterm]
    have hfilter1 :
        (l.filter (fun x => (key x).isSome)).filter (fun x => decide (key x = some k)) =
        l.filter (fun x => decide (key x = some k)) := by
      rw [List.filter_filter]
      apply List.filter_congr
      intro x _
      by_cases hkey : key x = some k
      · simp [hkey]
      · simp [hkey]
    have hfilter2 :
        (l.filter (fun x => (key x).isSome)).filter (fun x => ! decide (key x = some k)) =
        (l.filter (fun x => ! decide (key x = some k))).filter (fun x => (key x).isSome) := by
      rw [List.filter_filter, List.filter_filter]
      apply List.filter_congr
      intro x _
      exact Bool.and_comm _ _
    refine List.Perm.trans (List.Perm.append_left _ hperm2) ?_
    rw [← hfilter1, ← hfilter2]
    exact List.filter_append_perm _ _

end OrgReport

namespace OrgReport

/-- `all_scores` is a permutation of the means of the items having a
non-null sub-category label. -/
theorem catScores_perm (t : RawTable) (qdf : List IndexEntry) :
    (catScores t qdf).Perm
      ((qdf.filter (fun e => (e.subCat).isSome)).filterMap (itemMeanRaw t)) := by
  unfold catScores subcatLabels
  have hflat :
      ((firstSeen (qdf.filterMap IndexEntry.subCat)).flatMap
        (fun sc => (qdf.filter (fun e => decide (e.subCat = some sc))).filterMap
          (itemMeanRaw t))) =
      ((firstSeen (qdf.filterMap IndexEntry.subCat)).flatMap
        (fun sc => qdf.filter (fun e => decide (e.subCat = some sc)))).filterMap
          (itemMeanRaw t) :=
    (filterMap_flatMap_comm _ _ _).symm
  rw [hflat]
  apply List.Perm.filterMap
  apply group_flatten_perm IndexEntry.subCat
  · exact nodup_firstSeen _
  · intro a ha k hk
    rw [mem_firstSeen]
    exact List.mem_filterMap.mpr ⟨a, ha, hk⟩

/-- Table for the C3 counterexample: Q1 = 1, Q2 = 5 on a single row. -/
def Tsub : RawTable := ⟨["Q1", "Q2"], [[Cell.num 1, Cell.num 5]]⟩

/-- Input-category entry with a null (NaN) sub-category label. -/
def EsubNone : IndexEntry := ⟨"Q1", "no subcat", "Input", none⟩

/-- Input-category entry with sub-category "S". -/
def EsubS : IndexEntry := ⟨"Q2", "with subcat", "Input", some "S"⟩

/-- C3 (amended): the top-level category average is the rounded mean of the
item means of the items that have a non-null sub-category label; items with
a null sub-category label are excluded both from sub-category grouping and
from the category average (their loop iteration is skipped at lines
2908-2909). -/
theorem C3_category_average_amended (t : RawTable) (idx : List IndexEntry) (big : String) :
    ipoAvg t idx big =
      if ((idx.filter (bigMatch big)).filter
            (fun e => (e.subCat).isSome)).filterMap (itemMeanRaw t) = [] then none
      else some (pyround 2 (qmean (((idx.filter (bigMatch big)).filter
            (fun e => (e.subCat).isSome)).filterMap (itemMeanRaw t)))) := by
  by_cases hq : idx.filter (bigMatch big) = []
  · unfold ipoAvg mkCategory
    rw [if_pos hq, hq]
    simp
  · have havg : ipoAvg t idx big =
        if catScores t (idx.filter (bigMatch big)) = [] then none
        else some (pyround 2 (qmean (catScores t (idx.filter (bigMatch big))))) := by
      unfold ipoAvg mkCategory
      rw [if_neg hq]
      rfl
    rw [havg]
    have hperm := catScores_perm t (idx.filter (bigMatch big))
    have hlen := hperm.length_eq
    have hsum := hperm.sum_eq
    have hqm : qmean (catScores t (idx.filter (bigMatch big))) =
        qmean (((idx.filter (bigMatch big)).filter
          (fun e => (e.subCat).isSome)).filterMap (itemMeanRaw t)) := by
      unfold qmean
      rw [hlen, hsum]
    by_cases hall : catScores t (idx.filter (bigMatch big)) = []
    · have hms : ((idx.filter (bigMatch big)).filter
          (fun e => (e.subCat).isSome)).filterMap (itemMeanRaw t) = [] := by
        rw [hall] at hlen
        exact List.length_eq_zero.mp hlen.symm
      rw [if_pos hall, if_pos hms]
    · have hms : ((idx.filter (bigMatch big)).filter
          (fun e => (e.subCat).isSome)).filterMap (itemMeanRaw t) ≠ [] := by
        intro hz
        apply hall
        rw [hz] at hlen
        exact List.length_eq_zero.mp hlen
      rw [if_neg hall, if_neg hms, hqm]

/-- C3 counterexample to the claim as stated: with one Input item of mean
1.0 lacking a sub-category label and one of mean 5.0 labelled "S", the code
produces category average 5.0 (the null-sub-category item is dropped from
the average too), while the claim demands the mean of all item means,
round((1+5)/2, 2) = 3.0. -/
theorem C3_null_subcat_excluded_counterexample :
    ipoAvg Tsub [EsubNone, EsubS] "Input" = some 5 ∧
    itemMeanRaw Tsub EsubNone = some 1 ∧
    pyround 2 (qmean [(1:ℚ), 5]) = 3 ∧
    (5 : ℚ) ≠ 3 := by
  refine ⟨?_, ?_, ?_, by norm_num⟩
  · simp +decide [ipoAvg, mkCategory, catScores, subcatLabels, firstSeen, firstSeenAux,
      mkSubcat, mkItemScore, itemMeanRaw, itemHasData, colValid, RawTable.colCells,
      colIdx, to_num, qmean, bigMatch, containsCI,
      collapseWS, pywords, wordsAux, pylower, pystrip, substrL, startsWithL,
      likertLookup, LIKERT_MAP, Tsub, EsubNone, EsubS]
    norm_num [pyround, roundHalfEven]
  · simp +decide [itemMeanRaw, itemHasData, colValid, RawTable.colCells, colIdx,
      to_num, qmean, pystrip, Tsub, EsubNone]
  · norm_num [qmean, pyround, roundHalfEven]

end OrgReport

namespace OrgReport

/-! ### Sorting and enumeration lemmas (for the Unit Grouper claims) -/

/-- `insertBy` produces a permutation of consing. -/
theorem insertBy_perm (le : α → α → Bool) (a : α) :
    ∀ l : List α, (insertBy le a l).Perm (a :: l) := by
  intro l
  induction l with
  | nil => simp [insertBy]
  | cons b bs ih =>
    rw [insertBy]
    split_ifs
    · exact List.Perm.refl _
    · exact ((ih.cons b).trans (List.Perm.swap a b bs))

/-- `sortBy` permutes its input. -/
theorem sortBy_perm (le : α → α → Bool) :
    ∀ l : List α, (sortBy le l).Perm l := by
  intro l
  induction l with
  | nil => exact List.Perm.refl _
  | cons x xs ih => exact (insertBy_perm le x (sortBy le xs)).trans (ih.cons x)

/-- Membership is preserved by `sortBy`. -/
theorem mem_sortBy (le : α → α → Bool) (a : α) (l : List α) :
    a ∈ sortBy le l ↔ a ∈ l :=
  (sortBy_perm le l).mem_iff

/-- `sortBy` preserves duplicate-freedom. -/
theorem nodup_sortBy (le : α → α → Bool) (l : List α) (h : l.Nodup) :
    (sortBy le l).Nodup :=
  (sortBy_perm le l).nodup_iff.mpr h

/-- Inserting into a `le`-sorted list keeps it sorted, for a total and
transitive `le`. -/
theorem insertBy_pairwise (le : α → α → Bool)
    (htot : ∀ a b, le a b = true ∨ le b a = true)
    (htrans : ∀ a b c, le a b = true → le b c = true → le a c = true) (a : α) :
    ∀ l : List α, l.Pairwise (fun x y => le x y = true) →
      (insertBy le a l).Pairwise (fun x y => le x y = true) := by
  intro l
  induction l with
  | nil =>
    intro _
    simp [insertBy]
  | cons b bs ih =>
    intro hp
    obtain ⟨hb, hbs⟩ := List.pairwise_cons.mp hp
    rw [insertBy]
    split_ifs with hle
    · refine List.pairwise_cons.mpr ⟨?_, hp⟩
      intro y hy
      rcases List.mem_cons.mp hy with rfl | hy2
      · exact hle
      · exact htrans a b y hle (hb y hy2)
    · refine List.pairwise_cons.mpr ⟨?_, ih hbs⟩
      intro y hy
      have hy2 := (insertBy_perm le a bs).mem_iff.mp hy
      rcases List.mem_cons.mp hy2 with rfl | h3
      · rcases htot b y with h1 | h2
        · exact h1
        · exact absurd h2 hle
      · exact hb _ h3

/-- `sortBy` sorts, for a total and transitive `le`. -/
theorem sortBy_pairwise (le : α → α → Bool)
    (htot : ∀ a b, le a b = true ∨ le b a = true)
    (htrans : ∀ a b c, le a b = true → le b c = true → le a c = true) :
    ∀ l : List α, (sortBy le l).Pairwise (fun x y => le x y = true) := by
  intro l
  induction l with
  | nil => simp [sortBy]
  | cons x xs ih => exact insertBy_pairwise le htot htrans x _ ih

end OrgReport

namespace OrgReport

/-- `lexLt` is irreflexive. -/
theorem lexLt_irrefl : ∀ as : List Char, lexLt as as = false := by
  intro as
  induction as with
  | nil => rfl
  | cons a as ih => simp [lexLt, lt_irrefl, ih]

/-- `lexLt` is asymmetric. -/
theorem lexLt_asymm : ∀ as bs : List Char, lexLt as bs = true → lexLt bs as = false := by
  intro as
  induction as with
  | nil =>
    intro bs h
    cases bs with
    | nil => simp [lexLt] at h
    | cons b bs => rfl
  | cons a as ih =>
    intro bs h
    cases bs with
    | nil => simp [lexLt] at h
    | cons b bs =>
      rw [lexLt] at h ⊢
      by_cases hab : a < b
      · rw [if_neg (lt_asymm hab), if_pos hab]
      · rw [if_neg hab] at h
        by_cases hba : b < a
        · rw [if_pos hba] at h
          simp at h
        · rw [if_neg hba] at h
          rw [if_neg hba, if_neg hab]
          exact ih bs h

/-- `lexLt` is transitive. -/
theorem lexLt_trans : ∀ as bs cs : List Char,
    lexLt as bs = true → lexLt bs cs = true → lexLt as cs = true := by
  intro as
  induction as with
  | nil =>
    intro bs cs h1 h2
    cases bs with
    | nil => exact h2
    | cons b bs =>
      cases cs with
      | nil => simp [lexLt] at h2
      | cons c cs => rfl
  | cons a as ih =>
    intro bs cs h1 h2
    cases bs with
    | nil => simp [lexLt] at h1
    | cons b bs =>
      cases cs with
      | nil => simp [lexLt] at h2
      | cons c cs =>
        rw [lexLt] at h1 h2 ⊢
        by_cases hab : a < b
        · by_cases hbc : b < c
          · rw [if_pos (lt_trans hab hbc)]
          · rw [if_neg hbc] at h2
            by_cases hcb : c < b
            · rw [if_pos hcb] at h2
              simp at h2
            · have hbceq : b = c := le_antisymm (not_lt.mp hcb) (not_lt.mp hbc)
              rw [if_pos (hbceq ▸ hab)]
        · rw [if_neg hab] at h1
          by_cases hba : b < a
          · rw [if_pos hba] at h1
            simp at h1
          · rw [if_neg hba] at h1
            have haeq : a = b := le_antisymm (not_lt.mp hba) (not_lt.mp hab)
            subst haeq
            by_cases hac : a < c
            · rw [if_pos hac]
            · rw [if_neg hac] at h2 ⊢
              by_cases hca : c < a
              · rw [if_pos hca] at h2
                simp at h2
              · rw [if_neg hca] at h2 ⊢
                exact ih bs cs h1 h2

/-- Two char lists with neither below the other are equal. -/
theorem lexLt_conn : ∀ as bs : List Char,
    lexLt as bs = false → lexLt bs as = false → as = bs := by
  intro as
  induction as with
  | nil =>
    intro bs h1 _
    cases bs with
    | nil => rfl
    | cons b bs => simp [lexLt] at h1
  | cons a as ih =>
    intro bs h1 h2
    cases bs with
    | nil => simp [lexLt] at h2
    | cons b bs =>
      rw [lexLt] at h1 h2
      by_cases hab : a < b
      · rw [if_pos hab] at h1
        simp at h1
      · by_cases hba : b < a
        · rw [if_pos hba] at h2
          simp at h2
        · rw [if_neg hab, if_neg hba] at h1
          rw [if_neg hba, if_neg hab] at h2
          have haeq : a = b := le_antisymm (not_lt.mp hba) (not_lt.mp hab)
          rw [haeq, ih bs h1 h2]

end OrgReport

namespace OrgReport

/-- Equal char data gives equal strings. -/
theorem strEq_of_data {a b : String} (h : a.data = b.data) : a = b :=
  congrArg String.mk h

/-- `cellLt` is asymmetric. -/
theorem cellLt_asymm (a b : Cell) (h : cellLt a b = true) : cellLt b a = false := by
  cases a <;> cases b <;>
    simp +decide [cellLt, cellRank] at h ⊢ <;>
    first
      | exact lt_asymm h
      | exact le_of_lt h
      | exact lexLt_asymm _ _ h

/-- `cellLt` is transitive. -/
theorem cellLt_trans (a b c : Cell) (h1 : cellLt a b = true)
    (h2 : cellLt b c = true) : cellLt a c = true := by
  cases a <;> cases b <;> cases c <;>
    simp +decide [cellLt, cellRank] at h1 h2 ⊢ <;>
    first
      | exact lt_trans h1 h2
      | exact lexLt_trans _ _ _ h1 h2

/-- Two cells with neither below the other are equal. -/
theorem cellLt_conn (a b : Cell) (h1 : cellLt a b = false)
    (h2 : cellLt b a = false) : a = b := by
  cases a <;> cases b <;>
    simp +decide [cellLt, cellRank] at h1 h2 ⊢ <;>
    first
      | exact le_antisymm (not_lt.mp h2) (not_lt.mp h1)
      | exact le_antisymm h2 h1
      | exact strEq_of_data (lexLt_conn _ _ h1 h2)

/-- The relation used by `sortCells` is total. -/
theorem cellLe_total (a b : Cell) :
    (! cellLt b a) = true ∨ (! cellLt a b) = true := by
  by_cases h : cellLt a b = true
  · left
    simp [cellLt_asymm a b h]
  · right
    simp [Bool.not_eq_true] at h
    simp [h]

/-- The relation used by `sortCells` is transitive. -/
theorem cellLe_trans (a b c : Cell) :
    (! cellLt b a) = true → (! cellLt c b) = true → (! cellLt c a) = true := by
  intro h1 h2
  simp only [Bool.not_eq_true'] at h1 h2 ⊢
  by_contra hca
  simp only [Bool.not_eq_false] at hca
  by_cases hab : cellLt a b = true
  · have := cellLt_trans c a b hca hab
    rw [this] at h2
    exact absurd h2 (by simp)
  · simp only [Bool.not_eq_true] at hab
    have heq := cellLt_conn a b hab h1
    rw [heq] at hca
    rw [hca] at h2
    exact absurd h2 (by simp)

/-- `sortCells` of a duplicate-free list is strictly sorted in the
raw-value order pandas uses. -/
theorem sortCells_pairwise (l : List Cell) (h : l.Nodup) :
    (sortCells l).Pairwise (fun a b => cellLt a b = true) := by
  have hp := sortBy_pairwise (fun a b : Cell => ! cellLt b a)
    cellLe_total cellLe_trans l
  have hnd : (sortCells l).Nodup := nodup_sortBy _ l h
  have hand := List.Pairwise.and hp hnd
  apply hand.imp
  rintro a b ⟨hle, hne⟩
  simp only [Bool.not_eq_true'] at hle
  cases hab : cellLt a b with
  | true => rfl
  | false =>
    exfalso
    exact hne (cellLt_conn a b hab hle)

end OrgReport

namespace OrgReport

/-- `enumFrom` preserves length. -/
theorem enumFrom_length : ∀ (n : ℕ) (l : List α), (enumFrom n l).length = l.length := by
  intro n l
  induction l generalizing n with
  | nil => rfl
  | cons x xs ih => simp [enumFrom, ih]

/-- The second component of an `enumFrom` element is a list member. -/
theorem mem_enumFrom_snd : ∀ (n : ℕ) (l : List α) (p : ℕ × α),
    p ∈ enumFrom n l → p.2 ∈ l := by
  intro n l
  induction l generalizing n with
  | nil => intro p hp; simp [enumFrom] at hp
  | cons x xs ih =>
    intro p hp
    rw [enumFrom] at hp
    rcases List.mem_cons.mp hp with rfl | h2
    · exact List.mem_cons_self x xs
    · exact List.mem_cons_of_mem x (ih (n + 1) p h2)

/-- `filterMap` of an everywhere-`some` function is a `map`. -/
theorem filterMap_eq_map_of_mem : ∀ (l : List α) (f : α → Option β) (g : α → β),
    (∀ x ∈ l, f x = some (g x)) → l.filterMap f = l.map g := by
  intro l f g h
  induction l with
  | nil => rfl
  | cons x xs ih =>
    rw [List.filterMap_cons, h x (List.mem_cons_self x xs), List.map_cons,
      ih (fun y hy => h y (List.mem_cons_of_mem x hy))]

/-- The key stored in `keyedRows` is the row's grouping key. -/
theorem keyedRows_key (t : RawTable) (gc k : String) (ir : ℕ × List Cell)
    (h : (k, ir) ∈ keyedRows t gc) : rowKey t.cols gc ir.2 = some k := by
  unfold keyedRows at h
  obtain ⟨a, _, heq⟩ := List.mem_filterMap.mp h
  cases hr : rowKey t.cols gc a.2 with
  | none => rw [hr] at heq; simp at heq
  | some k2 =>
    rw [hr] at heq
    simp at heq
    obtain ⟨hk, hai⟩ := heq
    rw [← hai, hr, hk]

/-- Membership in `unitGroups`. -/
theorem mem_unitGroups (t : RawTable) (gc k : String) (rs : List (ℕ × List Cell)) :
    (k, rs) ∈ unitGroups t gc ↔
      (k ∈ sortedKeys t gc ∧
       rs = ((keyedRows t gc).filter (fun p => decide (p.1 = k))).map (·.2)) := by
  unfold unitGroups
  rw [List.mem_map]
  constructor
  · rintro ⟨k2, hk2, heq⟩
    simp only [Prod.mk.injEq] at heq
    obtain ⟨hkk, hrs⟩ := heq
    subst hkk
    exact ⟨hk2, hrs.symm⟩
  · rintro ⟨hk, hrs⟩
    exact ⟨k, hk, by rw [hrs]⟩

/-- A member column name has an index. -/
theorem colIdx_isSome_of_mem : ∀ (cols : List String) (gc : String),
    gc ∈ cols → ∃ i, colIdx cols gc = some i := by
  intro cols
  induction cols with
  | nil => intro gc h; simp at h
  | cons c cs ih =>
    intro gc h
    rw [colIdx]
    by_cases hc : c = gc
    · exact ⟨0, if_pos hc⟩
    · rcases List.mem_cons.mp h with h1 | h2
      · exact absurd h1.symm hc
      · obtain ⟨i, hi⟩ := ih gc h2
        exact ⟨i + 1, by rw [if_neg hc, hi]; rfl⟩

/-- A row's grouping key occurs among the sorted dict keys. -/
theorem rowKey_mem_sortedKeys (t : RawTable) (gc k : String) (x : ℕ × List Cell)
    (hx : x ∈ enumRows t.rows) (hk : rowKey t.cols gc x.2 = some k) :
    k ∈ sortedKeys t gc := by
  unfold rowKey at hk
  cases hci : colIdx t.cols gc with
  | none => rw [hci] at hk; simp at hk
  | some i =>
    rw [hci] at hk
    have hk2 : (x.2.getD i Cell.blank).asKey = some k := hk
    have hcb : x.2.getD i Cell.blank ≠ Cell.blank := by
      intro hb
      rw [hb] at hk2
      simp [Cell.asKey] at hk2
    have hcmem : x.2.getD i Cell.blank ∈ colKeyCells t gc := by
      apply List.mem_filter.mpr
      refine ⟨?_, by simpa using hcb⟩
      unfold RawTable.colCells
      rw [hci]
      exact List.mem_map.mpr ⟨x.2, mem_enumFrom_snd 0 t.rows x hx, rfl⟩
    have h2 : x.2.getD i Cell.blank ∈ sortCells (firstSeen (colKeyCells t gc)) := by
      unfold sortCells
      exact (mem_sortBy _ _ _).mpr ((mem_firstSeen _ _).mpr hcmem)
    unfold sortedKeys
    exact (mem_firstSeen _ _).mpr (List.mem_filterMap.mpr ⟨_, h2, hk2⟩)

/-- First components of a size-filtered key-indexed map. -/
theorem map_fst_filter_of (ks : List K) (g : K → β) (p : K × β → Bool)
    (q : K → Bool) (h : ∀ k2, p (k2, g k2) = q k2) :
    (((ks.map (fun k2 => (k2, g k2))).filter p).map (·.1)) = ks.filter q := by
  induction ks with
  | nil => rfl
  | cons k2 ks ih =>
    rw [List.map_cons, List.filter_cons, List.filter_cons, h k2]
    by_cases hq : q k2 = true
    · rw [if_pos hq, if_pos hq, List.map_cons, ih]
    · rw [if_neg hq, if_neg hq, ih]

end OrgReport

namespace OrgReport

/-- Six-row table, teams in first-seen order [B, A], three rows each. -/
def Tmix : RawTable :=
  ⟨["TEAM"], [[Cell.text "B"], [Cell.text "B"], [Cell.text "B"],
              [Cell.text "A"], [Cell.text "A"], [Cell.text "A"]]⟩

/-- Three-row table with a single team value "A". -/
def Tone3 : RawTable := ⟨["TEAM"], [[Cell.text "A"], [Cell.text "A"], [Cell.text "A"]]⟩

/-- Two-row table with a single team value "A". -/
def Tone2 : RawTable := ⟨["TEAM"], [[Cell.text "A"], [Cell.text "A"]]⟩

/-- C6 counterexample to the claim as stated: with grouping values seen in
order B, B, B, A, A, A the mapping keys come out sorted as ["A", "B"]
(pandas `groupby` sorts keys), not in first-seen order ["B", "A"]. -/
theorem C6_not_first_seen_counterexample :
    (group_data_by_unit Tmix "팀별" (some "TEAM")).groups.map (·.1) = ["A", "B"] ∧
    firstSeen ((keyedRows Tmix "TEAM").map (·.1)) = ["B", "A"] ∧
    (["A", "B"] : List String) ≠ ["B", "A"] := by
  refine ⟨by decide, by decide, by decide⟩

/-- `firstSeenAux` of a constant list whose value was already seen is empty. -/
theorem firstSeenAux_const_seen [DecidableEq α] (k : α) :
    ∀ (l : List α) (seen : List α), (∀ x ∈ l, x = k) → k ∈ seen →
      firstSeenAux seen l = [] := by
  intro l
  induction l with
  | nil => intro seen _ _; rfl
  | cons x xs ih =>
    intro seen hall hk
    have hx : x = k := hall x (List.mem_cons_self x xs)
    rw [firstSeenAux, if_pos (hx ▸ hk)]
    exact ih seen (fun y hy => hall y (List.mem_cons_of_mem x hy)) hk

/-- `firstSeen` of a nonempty constant list is the singleton. -/
theorem firstSeen_const [DecidableEq α] (k : α) (l : List α) (hne : l ≠ [])
    (hall : ∀ x ∈ l, x = k) : firstSeen l = [k] := by
  cases l with
  | nil => exact absurd rfl hne
  | cons x xs =>
    have hx : x = k := hall x (List.mem_cons_self x xs)
    subst hx
    rw [firstSeen, firstSeenAux]
    rw [if_neg (List.not_mem_nil x)]
    rw [firstSeenAux_const_seen x xs (x :: [])
      (fun y hy => hall y (List.mem_cons_of_mem x hy)) (List.mem_cons_self x [])]

/-- With a single grouping value, `keyedRows` keys every indexed row by it. -/
theorem keyedRows_const (t : RawTable) (gc k : String)
    (hkey : ∀ r ∈ t.rows, rowKey t.cols gc r = some k) :
    keyedRows t gc = (enumRows t.rows).map (fun ir => (k, ir)) := by
  unfold keyedRows
  apply filterMap_eq_map_of_mem
  intro ir hir
  rw [hkey ir.2 (mem_enumFrom_snd 0 t.rows ir hir)]
  rfl

/-- C5 (amended): in by-unit mode with a valid grouping column whose every
row has the same key `k`, the grouper returns the single group `k` with all
rows and no warning when the table has at least 3 rows; the
"whole organization" fallback with a warning occurs only when the table has
fewer than 3 rows. -/
theorem C5_single_distinct_value (t : RawTable) (gc k : String)
    (hgc : gc ≠ "") (hcol : gc ∈ t.cols)
    (hkey : ∀ r ∈ t.rows, rowKey t.cols gc r = some k) :
    (3 ≤ t.rows.length →
      group_data_by_unit t "팀별" (some gc) = ⟨[(k, enumRows t.rows)], false⟩) ∧
    (t.rows.length < 3 →
      group_data_by_unit t "팀별" (some gc) = ⟨[("전체 조직", enumRows t.rows)], true⟩) := by
  have hkr := keyedRows_const t gc k hkey
  have hlen : (keyedRows t gc).length = t.rows.length := by
    rw [hkr, List.length_map]
    exact enumFrom_length 0 t.rows
  obtain ⟨ic, hic⟩ := colIdx_isSome_of_mem t.cols gc hcol
  have hcellk : ∀ c ∈ colKeyCells t gc, Cell.asKey c = some k := by
    intro c hc
    obtain ⟨hcc, _⟩ := List.mem_filter.mp hc
    unfold RawTable.colCells at hcc
    rw [hic] at hcc
    obtain ⟨r, hr, hrc⟩ := List.mem_map.mp hcc
    have hrk := hkey r hr
    unfold rowKey at hrk
    rw [hic] at hrk
    have hrk2 : (r.getD ic Cell.blank).asKey = some k := hrk
    rw [hrc] at hrk2
    exact hrk2
  have hsk : t.rows ≠ [] → sortedKeys t gc = [k] := by
    intro hne
    unfold sortedKeys
    apply firstSeen_const
    · cases hrows : t.rows with
      | nil => exact absurd hrows hne
      | cons r rs =>
        have hr0 : r ∈ t.rows := by rw [hrows]; exact List.mem_cons_self r rs
        have hkr0 := hkey r hr0
        unfold rowKey at hkr0
        rw [hic] at hkr0
        have hkr2 : (r.getD ic Cell.blank).asKey = some k := hkr0
        have hc0b : r.getD ic Cell.blank ≠ Cell.blank := by
          intro hb
          rw [hb] at hkr2
          simp [Cell.asKey] at hkr2
        have hc0mem : r.getD ic Cell.blank ∈ colKeyCells t gc := by
          apply List.mem_filter.mpr
          refine ⟨?_, by simpa using hc0b⟩
          unfold RawTable.colCells
          rw [hic]
          exact List.mem_map.mpr ⟨r, hr0, rfl⟩
        have h2 : r.getD ic Cell.blank ∈ sortCells (firstSeen (colKeyCells t gc)) := by
          unfold sortCells
          exact (mem_sortBy _ _ _).mpr ((mem_firstSeen _ _).mpr hc0mem)
        exact List.ne_nil_of_mem (List.mem_filterMap.mpr ⟨_, h2, hkr2⟩)
    · intro s hs
      obtain ⟨c, hc, hck⟩ := List.mem_filterMap.mp hs
      have hcmem : c ∈ colKeyCells t gc := by
        unfold sortCells at hc
        exact (mem_firstSeen _ _).mp ((mem_sortBy _ _ _).mp hc)
      rw [hcellk c hcmem] at hck
      exact (Option.some.inj hck).symm
  have hgroups : t.rows ≠ [] → unitGroups t gc = [(k, enumRows t.rows)] := by
    intro hne
    unfold unitGroups
    rw [hsk hne]
    have hfilter : (keyedRows t gc).filter (fun p => decide (p.1 = k)) = keyedRows t gc := by
      rw [List.filter_eq_self]
      intro p hp
      rw [hkr] at hp
      obtain ⟨ir, _, hir⟩ := List.mem_map.mp hp
      rw [← hir]
      simp
    simp only [List.map_cons, List.map_nil]
    rw [hfilter, hkr, List.map_map]
    have hcomp : (enumRows t.rows).map ((fun p : String × (ℕ × List Cell) => p.2) ∘
        (fun ir => (k, ir))) = (enumRows t.rows).map (fun ir => ir) := rfl
    rw [hcomp, List.map_id']
  constructor
  · intro h3
    have hne : t.rows ≠ [] := by
      intro hz
      rw [hz] at h3
      simp at h3
    have hU := hgroups hne
    have hbig : bigGroups t gc = [(k, enumRows t.rows)] := by
      unfold bigGroups
      rw [hU]
      have hlen2 : (enumRows t.rows).length = t.rows.length := enumFrom_length 0 t.rows
      rw [List.filter_cons]
      simp only [hlen2]
      rw [if_pos (by simpa using h3)]
      rfl
    unfold group_data_by_unit
    rw [if_neg (by decide : ¬ ("팀별" : String) = "전체"), if_pos rfl]
    show (if gc = "" ∨ ¬ gc ∈ t.cols then _ else _) = _
    rw [if_neg (by simp [hgc, hcol]), if_neg (by simp [hbig]), hbig]
  · intro h3
    have hbig : bigGroups t gc = [] := by
      unfold bigGroups
      cases hrows : t.rows with
      | nil =>
        have hcc : RawTable.colCells t gc = [] := by
          unfold RawTable.colCells
          rw [hic, hrows]
          rfl
        have hck0 : colKeyCells t gc = [] := by
          unfold colKeyCells
          rw [hcc]
          rfl
        have hsk0 : sortedKeys t gc = [] := by
          unfold sortedKeys
          rw [hck0]
          rfl
        unfold unitGroups
        rw [hsk0]
        rfl
      | cons x xs =>
        have hne : t.rows ≠ [] := by rw [hrows]; simp
        rw [hgroups hne]
        have hlen2 : (enumRows t.rows).length = t.rows.length := enumFrom_length 0 t.rows
        rw [List.filter_cons]
        simp only [hlen2]
        rw [if_neg (by simpa using Nat.not_le.mpr h3)]
        rfl
    unfold group_data_by_unit
    rw [if_neg (by decide : ¬ ("팀별" : String) = "전체"), if_pos rfl]
    show (if gc = "" ∨ ¬ gc ∈ t.cols then _ else _) = _
    rw [if_neg (by simp [hgc, hcol]), if_pos hbig]

end OrgReport

namespace OrgReport

/-- Witness for C5: the two sides of the size threshold at single-value
tables with 3 and 2 rows. -/
theorem C5_single_distinct_value_witness :
    group_data_by_unit Tone3 "팀별" (some "TEAM") =
      ⟨[("A", enumRows Tone3.rows)], false⟩ ∧
    group_data_by_unit Tone2 "팀별" (some "TEAM") =
      ⟨[("전체 조직", enumRows Tone2.rows)], true⟩ :=
  ⟨(C5_single_distinct_value Tone3 "TEAM" "A" (by decide) (by decide) (by decide)).1
     (by decide),
   (C5_single_distinct_value Tone2 "TEAM" "A" (by decide) (by decide) (by decide)).2
     (by decide)⟩

/-- C5 counterexample to the claim as stated: on a 3-row table whose
grouping column has the single distinct value "A", the grouper returns the
group keyed "A" (not the "전체 조직" fallback) and no warning is surfaced. -/
theorem C5_no_fallback_counterexample :
    group_data_by_unit Tone3 "팀별" (some "TEAM") =
      ⟨[("A", [(0, [Cell.text "A"]), (1, [Cell.text "A"]), (2, [Cell.text "A"])])],
        false⟩ ∧
    ("A" : String) ≠ "전체 조직" := ⟨by decide, by decide⟩

/-- Membership in `keyedRows` is an indexed row with that grouping key. -/
theorem mem_keyedRows (t : RawTable) (gc k : String) (x : ℕ × List Cell) :
    (k, x) ∈ keyedRows t gc ↔
      (x ∈ enumRows t.rows ∧ rowKey t.cols gc x.2 = some k) := by
  unfold keyedRows
  rw [List.mem_filterMap]
  constructor
  · rintro ⟨a, ha, heq⟩
    cases hr : rowKey t.cols gc a.2 with
    | none => rw [hr] at heq; simp at heq
    | some k2 =>
      rw [hr] at heq
      simp at heq
      obtain ⟨hk, hax⟩ := heq
      subst hax
      exact ⟨ha, by rw [hr, hk]⟩
  · rintro ⟨hx, hk⟩
    exact ⟨x, hx, by rw [hk]; rfl⟩

/-- Branch analysis of the by-unit grouper. -/
theorem group_data_team_cases (t : RawTable) (gc : String) :
    (group_data_by_unit t "팀별" (some gc) = ⟨[("전체 조직", enumRows t.rows)], true⟩) ∨
    (group_data_by_unit t "팀별" (some gc) = ⟨bigGroups t gc, false⟩ ∧
     bigGroups t gc ≠ []) := by
  unfold group_data_by_unit
  rw [if_neg (by decide : ¬ ("팀별" : String) = "전체"), if_pos rfl]
  show ((if gc = "" ∨ ¬ gc ∈ t.cols then
            Grouped.mk [("전체 조직", enumRows t.rows)] true
          else if bigGroups t gc = [] then
            Grouped.mk [("전체 조직", enumRows t.rows)] true
          else Grouped.mk (bigGroups t gc) false) =
        ⟨[("전체 조직", enumRows t.rows)], true⟩) ∨
      ((if gc = "" ∨ ¬ gc ∈ t.cols then
            Grouped.mk [("전체 조직", enumRows t.rows)] true
          else if bigGroups t gc = [] then
            Grouped.mk [("전체 조직", enumRows t.rows)] true
          else Grouped.mk (bigGroups t gc) false) =
        ⟨bigGroups t gc, false⟩ ∧ bigGroups t gc ≠ [])
  by_cases h3 : gc = "" ∨ ¬ gc ∈ t.cols
  · left
    rw [if_pos h3]
  · rw [if_neg h3]
    by_cases h4 : bigGroups t gc = []
    · left
      rw [if_pos h4]
    · right
      rw [if_neg h4]
      exact ⟨rfl, h4⟩

/-- C4 (amended): in by-unit mode the sub-tables are pairwise disjoint; and
whenever the partition succeeded (no fallback warning), a row belongs to
some group exactly when its grouping key is non-null and that key's group
has at least 3 rows — groups of fewer than 3 rows (and rows with a null
key) are dropped. If no group reaches 3 rows the grouper instead falls back
to a single whole-organization group containing every row. -/
theorem C4_partition_amended (t : RawTable) (gc : String) :
    (∀ k1 rs1 k2 rs2, (k1, rs1) ∈ (group_data_by_unit t "팀별" (some gc)).groups →
        (k2, rs2) ∈ (group_data_by_unit t "팀별" (some gc)).groups → k1 ≠ k2 →
        ∀ x, x ∈ rs1 → x ∉ rs2) ∧
    ((group_data_by_unit t "팀별" (some gc)).warned = false →
      ∀ x : ℕ × List Cell,
        ((∃ k rs, (k, rs) ∈ (group_data_by_unit t "팀별" (some gc)).groups ∧ x ∈ rs) ↔
         (x ∈ enumRows t.rows ∧ ∃ k, rowKey t.cols gc x.2 = some k ∧
            3 ≤ ((keyedRows t gc).filter (fun p => decide (p.1 = k))).length))) := by
  have hbigmem : ∀ k rs, (k, rs) ∈ bigGroups t gc →
      (k ∈ sortedKeys t gc ∧
       rs = ((keyedRows t gc).filter (fun p => decide (p.1 = k))).map (·.2) ∧
       3 ≤ rs.length) := by
    intro k rs hmem
    have h1 := List.mem_filter.mp hmem
    have h2 := (mem_unitGroups t gc k rs).mp h1.1
    refine ⟨h2.1, h2.2, ?_⟩
    have := h1.2
    simpa using this
  constructor
  · intro k1 rs1 k2 rs2 hm1 hm2 hne x hx1 hx2
    rcases group_data_team_cases t gc with hfall | ⟨hpart, _⟩
    · rw [hfall] at hm1 hm2
      simp at hm1 hm2
      exact hne (hm1.1.symm ▸ hm2.1.symm ▸ rfl)
    · rw [hpart] at hm1 hm2
      obtain ⟨_, hrs1, _⟩ := hbigmem k1 rs1 hm1
      obtain ⟨_, hrs2, _⟩ := hbigmem k2 rs2 hm2
      rw [hrs1] at hx1
      rw [hrs2] at hx2
      obtain ⟨p1, hp1, hp1x⟩ := List.mem_map.mp hx1
      obtain ⟨p2, hp2, hp2x⟩ := List.mem_map.mp hx2
      obtain ⟨hp1k, hp1f⟩ := List.mem_filter.mp hp1
      obtain ⟨hp2k, hp2f⟩ := List.mem_filter.mp hp2
      have hk1 : p1.1 = k1 := by simpa using hp1f
      have hk2 : p2.1 = k2 := by simpa using hp2f
      have hkey1 : rowKey t.cols gc x.2 = some k1 := by
        have : (k1, x) ∈ keyedRows t gc := by
          rw [← hk1, ← hp1x]
          simpa using hp1k
        exact keyedRows_key t gc k1 x this
      have hkey2 : rowKey t.cols gc x.2 = some k2 := by
        have : (k2, x) ∈ keyedRows t gc := by
          rw [← hk2, ← hp2x]
          simpa using hp2k
        exact keyedRows_key t gc k2 x this
      rw [hkey1] at hkey2
      exact hne (Option.some.inj hkey2)
  · intro hwarn x
    rcases group_data_team_cases t gc with hfall | ⟨hpart, _⟩
    · rw [hfall] at hwarn
      simp at hwarn
    · rw [hpart]
      constructor
      · rintro ⟨k, rs, hmem, hx⟩
        obtain ⟨_, hrs, hsize⟩ := hbigmem k rs hmem
        rw [hrs] at hx hsize
        obtain ⟨p, hp, hpx⟩ := List.mem_map.mp hx
        obtain ⟨hpk, hpf⟩ := List.mem_filter.mp hp
        have hk : p.1 = k := by simpa using hpf
        have hkx : (k, x) ∈ keyedRows t gc := by
          rw [← hk, ← hpx]
          simpa using hpk
        have hmk := (mem_keyedRows t gc k x).mp hkx
        refine ⟨hmk.1, k, hmk.2, ?_⟩
        rw [List.length_map] at hsize
        exact hsize
      · rintro ⟨hxr, k, hkey, hsize⟩
        have hkx : (k, x) ∈ keyedRows t gc := (mem_keyedRows t gc k x).mpr ⟨hxr, hkey⟩
        have hkmem : k ∈ sortedKeys t gc :=
          rowKey_mem_sortedKeys t gc k x hxr hkey
        refine ⟨k, ((keyedRows t gc).filter (fun p => decide (p.1 = k))).map (·.2),
          ?_, ?_⟩
        · apply List.mem_filter.mpr
          refine ⟨(mem_unitGroups t gc k _).mpr ⟨hkmem, rfl⟩, ?_⟩
          simp only [List.length_map]
          simpa using hsize
        · exact List.mem_map.mpr ⟨(k, x), List.mem_filter.mpr ⟨hkx, by simp⟩, rfl⟩

end OrgReport

namespace OrgReport

/-- C4 counterexample to the claim as stated: on a table whose only group
has 2 rows, the claim demands that group be dropped (union empty), but the
code falls back to a single whole-organization group containing both rows. -/
theorem C4_small_group_not_dropped_counterexample :
    group_data_by_unit Tone2 "팀별" (some "TEAM") =
      ⟨[("전체 조직", [(0, [Cell.text "A"]), (1, [Cell.text "A"])])], true⟩ ∧
    ((keyedRows Tone2 "TEAM").filter (fun p => decide (p.1 = "A"))).length = 2 :=
  ⟨by decide, by decide⟩

/-- Witness for C4: disjointness and the union characterisation exercised on
the 6-row two-team table. -/
theorem C4_partition_amended_witness :
    ((3, [Cell.text "A"]) ∉
      [((0 : ℕ), [Cell.text "B"]), (1, [Cell.text "B"]), (2, [Cell.text "B"])]) ∧
    (∃ k rs, (k, rs) ∈ (group_data_by_unit Tmix "팀별" (some "TEAM")).groups ∧
      (0, [Cell.text "B"]) ∈ rs) :=
  ⟨(C4_partition_amended Tmix "TEAM").1
      "A" [(3, [Cell.text "A"]), (4, [Cell.text "A"]), (5, [Cell.text "A"])]
      "B" [(0, [Cell.text "B"]), (1, [Cell.text "B"]), (2, [Cell.text "B"])]
      (by decide) (by decide) (by decide) (3, [Cell.text "A"]) (by decide),
   ((C4_partition_amended Tmix "TEAM").2 (by decide) (0, [Cell.text "B"])).mpr
      ⟨by decide, "B", by decide, by decide⟩⟩

end OrgReport

namespace OrgReport

/-- C8 (amended): the report pipeline is a pure function of the table, the
index and the clock date: the date appears verbatim as `report_date`, and
every other modelled field is identical across runs with different clock
dates (so two runs on the same inputs differ at most in `report_date`). -/
theorem C8_deterministic_modulo_date (mask : String → String) (t : RawTable)
    (idx : List IndexEntry) (d1 d2 : String) :
    (build_report mask t idx d1).report_date = d1 ∧
    { build_report mask t idx d1 with report_date := "" } =
      { build_report mask t idx d2 with report_date := "" } :=
  ⟨rfl, rfl⟩

/-- C8 counterexample to the claim as stated: the returned report embeds
`datetime.now().strftime("%Y.%m.%d")` as `report_date` (line 3110), so runs
on the same RawTable and index at different clock dates are not
byte-identical. -/
theorem C8_timestamp_counterexample :
    build_report (fun s => s) Tone2 [] "2026.10.12" ≠
      build_report (fun s => s) Tone2 [] "2026.10.13" := by
  intro h
  have hd : ("2026.10.12" : String) = "2026.10.13" :=
    congrArg ReportRecord.report_date h
  exact absurd hd (by decide)

end OrgReport

namespace OrgReport

/-- The long free-text response of the spec's end-to-end scenario. -/
def Lc : String := "this is a sufficiently long response about culture"

/-- Every retained answer is the masked strip of an input of length ≥ 10. -/
theorem cleanLoop_mem (mask : String → String) (g : List String) :
    ∀ (raw : List String) (seen : List String),
      ∀ x ∈ cleanLoop mask g seen raw,
        ∃ r ∈ raw, x = mask (pystrip r) ∧ 10 ≤ (pystrip r).length := by
  intro raw
  induction raw with
  | nil => intro seen x hx; simp [cleanLoop] at hx
  | cons a rest ih =>
    intro seen x hx
    simp only [cleanLoop] at hx
    by_cases h1 : (pystrip a).length < 10
    · rw [if_pos h1] at hx
      obtain ⟨r, hr, hprop⟩ := ih seen x hx
      exact ⟨r, List.mem_cons_of_mem a hr, hprop⟩
    · rw [if_neg h1] at hx
      by_cases h2 : normalizeWS (pystrip a) ∈ seen ∨ normalizeWS (pystrip a) ∈ g
      · rw [if_pos h2] at hx
        obtain ⟨r, hr, hprop⟩ := ih seen x hx
        exact ⟨r, List.mem_cons_of_mem a hr, hprop⟩
      · rw [if_neg h2] at hx
        rcases List.mem_cons.mp hx with rfl | hx2
        · exact ⟨a, List.mem_cons_self a rest, rfl, Nat.not_lt.mp h1⟩
        · obtain ⟨r, hr, hprop⟩ := ih _ x hx2
          exact ⟨r, List.mem_cons_of_mem a hr, hprop⟩

/-- `sortByLenDesc` sorts by length, descending. -/
theorem sortByLenDesc_pairwise (l : List String) :
    (sortByLenDesc l).Pairwise (fun a b => b.length ≤ a.length) := by
  have htot : ∀ a b : String,
      decide (b.length ≤ a.length) = true ∨ decide (a.length ≤ b.length) = true := by
    intro a b
    rcases Nat.le_total b.length a.length with h | h
    · left; simpa using h
    · right; simpa using h
  have htrans : ∀ a b c : String, decide (b.length ≤ a.length) = true →
      decide (c.length ≤ b.length) = true → decide (c.length ≤ a.length) = true := by
    intro a b c h1 h2
    simp only [decide_eq_true_eq] at h1 h2 ⊢
    exact le_trans h2 h1
  have := sortBy_pairwise (fun a b : String => decide (b.length ≤ a.length))
    htot htrans l
  exact this.imp (fun h => by simpa using h)

/-- C9 (amended): at most 20 responses are retained; each retained response
is the masked trim of an input at least 10 characters long; retained
responses keep input order when at most 20 survive the filtering, and only
when more than 20 survive is the list sorted by length descending (stable)
and truncated to 20; the spec's 3-element example retains exactly one
response. -/
theorem C9_preprocess_amended (mask : String → String) (raw : List String) :
    ((preprocess_answer_list mask raw []).1.length ≤ 20) ∧
    (∀ x ∈ (preprocess_answer_list mask raw []).1,
      ∃ r ∈ raw, x = mask (pystrip r) ∧ 10 ≤ (pystrip r).length) ∧
    ((cleanLoop mask [] [] raw).length ≤ 20 →
      (preprocess_answer_list mask raw []).1 = cleanLoop mask [] [] raw) ∧
    (20 < (cleanLoop mask [] [] raw).length →
      (preprocess_answer_list mask raw []).1 =
        (sortByLenDesc (cleanLoop mask [] [] raw)).take 20 ∧
      ((preprocess_answer_list mask raw []).1).Pairwise
        (fun a b => b.length ≤ a.length)) ∧
    (preprocess_answer_list (fun s => s) ["ok", Lc, Lc ++ " "] []).1 = [Lc] := by
  by_cases hraw : raw = []
  · subst hraw
    refine ⟨by simp [preprocess_answer_list], by simp [preprocess_answer_list],
      fun _ => by simp [preprocess_answer_list, cleanLoop],
      fun h => absurd h (by simp [cleanLoop]), by decide⟩
  · have hfst : (preprocess_answer_list mask raw []).1 =
        if 20 < (cleanLoop mask [] [] raw).length then
          (sortByLenDesc (cleanLoop mask [] [] raw)).take 20
        else cleanLoop mask [] [] raw := by
      unfold preprocess_answer_list
      rw [if_neg hraw]
    refine ⟨?_, ?_, ?_, ?_, by decide⟩
    · rw [hfst]
      by_cases h20 : 20 < (cleanLoop mask [] [] raw).length
      · rw [if_pos h20]
        have := List.length_take 20 (sortByLenDesc (cleanLoop mask [] [] raw))
        omega
      · rw [if_neg h20]
        omega
    · intro x hx
      rw [hfst] at hx
      by_cases h20 : 20 < (cleanLoop mask [] [] raw).length
      · rw [if_pos h20] at hx
        have hx2 : x ∈ sortByLenDesc (cleanLoop mask [] [] raw) :=
          (List.take_sublist 20 _).mem hx
        have hx3 : x ∈ cleanLoop mask [] [] raw := by
          unfold sortByLenDesc at hx2
          exact (mem_sortBy _ x _).mp hx2
        exact cleanLoop_mem mask [] raw [] x hx3
      · rw [if_neg h20] at hx
        exact cleanLoop_mem mask [] raw [] x hx
    · intro hle
      rw [hfst, if_neg (by omega)]
    · intro hgt
      rw [hfst, if_pos hgt]
      refine ⟨rfl, ?_⟩
      exact (sortByLenDesc_pairwise _).sublist (List.take_sublist 20 _)

/-- Witness for C9: the input-order branch exercised on the spec's
3-element example. -/
theorem C9_preprocess_amended_witness :
    (cleanLoop (fun s => s) [] [] ["ok", Lc, Lc ++ " "]).length ≤ 20 ∧
    (preprocess_answer_list (fun s => s) ["ok", Lc, Lc ++ " "] []).1 =
      cleanLoop (fun s => s) [] [] ["ok", Lc, Lc ++ " "] :=
  ⟨by decide,
   (C9_preprocess_amended (fun s => s) ["ok", Lc, Lc ++ " "]).2.2.1 (by decide)⟩

/-- C9 counterexample to the claim as stated: with two retained responses
(10 and 11 characters, shorter first), the retained list keeps input order
["aaaaaaaaaa", "bbbbbbbbbbb"], which is not ordered by length descending —
the length sort only happens when more than 20 responses survive
(line 113). -/
theorem C9_not_sorted_counterexample :
    (preprocess_answer_list (fun s => s) ["aaaaaaaaaa", "bbbbbbbbbbb"] []).1 =
      ["aaaaaaaaaa", "bbbbbbbbbbb"] ∧
    ("aaaaaaaaaa" : String).length < ("bbbbbbbbbbb" : String).length :=
  ⟨by decide, by decide⟩

end OrgReport

namespace OrgReport

/-- The updated global set is the old one plus the normalised forms of the
first three retained answers (lines 116-119). -/
theorem preprocess_snd (mask : String → String) (raw g : List String) :
    (preprocess_answer_list mask raw g).2 =
      g ++ ((preprocess_answer_list mask raw g).1.take 3).map normalizeWS := by
  unfold preprocess_answer_list
  by_cases hraw : raw = []
  · rw [if_pos hraw]
    simp
  · rw [if_neg hraw]

/-- An input whose normalised trim is in the global set contributes nothing
to the cleaned list. -/
theorem cleanLoop_skip_global (mask : String → String) (g : List String)
    (r : String) (hg : normalizeWS (pystrip r) ∈ g) :
    ∀ (xs ys seen : List String),
      cleanLoop mask g seen (xs ++ r :: ys) = cleanLoop mask g seen (xs ++ ys) := by
  intro xs
  induction xs with
  | nil =>
    intro ys seen
    simp only [List.nil_append, cleanLoop]
    by_cases hlen : (pystrip r).length < 10
    · rw [if_pos hlen]
    · rw [if_neg hlen, if_pos (Or.inr hg)]
  | cons a xs ih =>
    intro ys seen
    simp only [List.cons_append, cleanLoop]
    by_cases h1 : (pystrip a).length < 10
    · rw [if_pos h1, if_pos h1]
      exact ih ys seen
    · rw [if_neg h1, if_neg h1]
      by_cases h2 : normalizeWS (pystrip a) ∈ seen ∨ normalizeWS (pystrip a) ∈ g
      · rw [if_pos h2, if_pos h2]
        exact ih ys seen
      · rw [if_neg h2, if_neg h2]
        exact congrArg _ (ih ys _)

/-- C10: free-text deduplication is global across questions. The normalised
forms of (up to) the first three retained responses of an earlier question
are appended to the shared set, and any later-question response matching
one of them is excluded: dropping that response from the later question's
raw list leaves the later question's retained output unchanged. The second
conjunct shows the Report Assembler threads the shared set through the
free-text questions in sequence. -/
theorem C10_global_dedup (mask : String → String) (raw1 xs ys : List String)
    (r : String) (g0 : List String)
    (hmem : normalizeWS (pystrip r) ∈
      ((preprocess_answer_list mask raw1 g0).1.take 3).map normalizeWS) :
    ((preprocess_answer_list mask (xs ++ r :: ys)
        (preprocess_answer_list mask raw1 g0).2).1 =
      (preprocess_answer_list mask (xs ++ ys)
        (preprocess_answer_list mask raw1 g0).2).1) ∧
    (∀ (t : RawTable) (e1 : IndexEntry) (rest : List IndexEntry),
      e1.header ∈ t.cols → (t.colCells e1.header).filterMap Cell.asStr ≠ [] →
      bsoAux mask t g0 (e1 :: rest) =
        ⟨e1.header, e1.question, e1.subCat,
          (preprocess_answer_list mask
            ((t.colCells e1.header).filterMap Cell.asStr) g0).1⟩ ::
          bsoAux mask t
            (preprocess_answer_list mask
              ((t.colCells e1.header).filterMap Cell.asStr) g0).2 rest) := by
  constructor
  · set g1 := (preprocess_answer_list mask raw1 g0).2 with hg1
    have hgmem : normalizeWS (pystrip r) ∈ g1 := by
      rw [hg1, preprocess_snd]
      exact List.mem_append_right _ hmem
    have hclean := cleanLoop_skip_global mask g1 r hgmem xs ys []
    show (preprocess_answer_list mask (xs ++ r :: ys) g1).1 =
      (preprocess_answer_list mask (xs ++ ys) g1).1
    unfold preprocess_answer_list
    rw [if_neg (by simp : xs ++ r :: ys ≠ [])]
    by_cases hxy : xs ++ ys = []
    · rw [if_pos hxy]
      dsimp only
      rw [hclean, hxy]
      simp [cleanLoop]
    · rw [if_neg hxy]
      dsimp only
      rw [hclean]
  · intro t e1 rest hcol hraw
    rw [bsoAux, if_pos hcol, if_neg hraw]

end OrgReport

namespace OrgReport

/-- Witness for C10: a second-question response differing from the first
question's sole retained response only by trailing whitespace is excluded. -/
theorem C10_global_dedup_witness :
    (preprocess_answer_list (fun s => s) ([] ++ (Lc ++ "  ") :: [])
        (preprocess_answer_list (fun s => s) [Lc] []).2).1 =
      (preprocess_answer_list (fun s => s) ([] ++ [])
        (preprocess_answer_list (fun s => s) [Lc] []).2).1 :=
  (C10_global_dedup (fun s => s) [Lc] [] [] (Lc ++ "  ") [] (by decide)).1

end OrgReport

namespace OrgReport

/-- Six-row table with a numeric grouping column: team IDs 10 and 2, three
rows each; pandas sorts the raw values (2 < 10) before stringifying. -/
def TnumMix : RawTable :=
  ⟨["TEAM"], [[Cell.num 10], [Cell.num 10], [Cell.num 10],
              [Cell.num 2], [Cell.num 2], [Cell.num 2]]⟩

/-- C6 (amended): in by-unit mode the mapping keys are the stringifications
of the grouping column's distinct raw values taken in ascending raw-value
order (numeric values numerically, strings code-point lexicographically —
pandas `groupby` sorts the raw values before `str()` is applied), not in
first-seen order: the distinct raw values sort strictly by `cellLt`, their
membership is exactly the column's non-null cells, and when the partition
succeeded the group keys are exactly the stringified sorted values whose
groups have at least 3 rows. -/
theorem C6_keys_sorted_amended (t : RawTable) (gc : String) :
    (sortCells (firstSeen (colKeyCells t gc))).Pairwise
      (fun a b => cellLt a b = true) ∧
    (∀ c : Cell, c ∈ sortCells (firstSeen (colKeyCells t gc)) ↔
      c ∈ colKeyCells t gc) ∧
    ((group_data_by_unit t "팀별" (some gc)).warned = false →
      (group_data_by_unit t "팀별" (some gc)).groups.map (·.1) =
        (firstSeen ((sortCells (firstSeen (colKeyCells t gc))).filterMap
          Cell.asKey)).filter
          (fun k2 => decide (3 ≤ ((keyedRows t gc).filter
            (fun p => decide (p.1 = k2))).length))) := by
  refine ⟨sortCells_pairwise _ (nodup_firstSeen _), ?_, ?_⟩
  · intro c
    unfold sortCells
    rw [mem_sortBy, mem_firstSeen]
  · intro hwarn
    rcases group_data_team_cases t gc with hfall | ⟨hpart, _⟩
    · rw [hfall] at hwarn
      simp at hwarn
    · rw [hpart]
      show (bigGroups t gc).map (·.1) = _
      unfold bigGroups unitGroups
      have hq : ∀ k2 : String,
          (fun g : String × List (ℕ × List Cell) => decide (3 ≤ g.2.length))
            (k2, ((keyedRows t gc).filter (fun p => decide (p.1 = k2))).map (·.2)) =
          decide (3 ≤ ((keyedRows t gc).filter
            (fun p => decide (p.1 = k2))).length) := by
        intro k2
        simp [List.length_map]
      exact map_fst_filter_of (sortedKeys t gc) _ _ _ hq

/-- Witness for C6 at the numeric grouping column: raw values sort 2 before
10, giving keys ["2", "10"] (code-point lexicographic order would put "10"
first). -/
theorem C6_keys_sorted_amended_witness :
    (group_data_by_unit TnumMix "팀별" (some "TEAM")).warned = false ∧
    (group_data_by_unit TnumMix "팀별" (some "TEAM")).groups.map (·.1) = ["2", "10"] ∧
    (group_data_by_unit TnumMix "팀별" (some "TEAM")).groups.map (·.1) =
      (firstSeen ((sortCells (firstSeen (colKeyCells TnumMix "TEAM"))).filterMap
        Cell.asKey)).filter
        (fun k2 => decide (3 ≤ ((keyedRows TnumMix "TEAM").filter
          (fun p => decide (p.1 = k2))).length)) :=
  ⟨by decide, by decide,
   (C6_keys_sorted_amended TnumMix "TEAM").2.2 (by decide)⟩

end OrgReport
